import Mathlib

/-!
Verification development for the iasppt decentralized compute marketplace.

The coordinator smart contract (src/compute-deai/src/lib.rs) is shallowly
embedded as a pure state machine: NEAR collection types (UnorderedMap,
Vector, LookupMap) become association lists and lists preserving the
source's insertion-order iteration semantics; machine integers (u32, u64,
u128) become Nat (reachable values stay far below the word bounds, and the
source build aborts the transaction on overflow, which the embedding
mirrors by never reaching those values; u32::saturating_sub and Nat
subtraction agree).  A call that hits a failed require! aborts with no
state change, which the embedding models with Except: the step function
keeps the pre-state on error.  Native NEAR balance transfers (Promise) are
outside the modelled state.  The gateway's JWT issuance
(src/api-gateway/src/auth.rs) and rate limiter
(src/api-gateway/src/rate_limit.rs) are embedded as pure functions over
integer seconds; the Redis primitives INCR / ZADD / ZREMRANGEBYSCORE /
ZCARD are modelled by their documented semantics on association lists and
timestamp sets (key TTLs cannot fire between two calls that land in the
same epoch bucket, so expiry is not modelled).
-/

/-- Lookup in an association list (first binding wins), the embedding of
UnorderedMap / LookupMap `get`. -/
def lookupA {κ α : Type} [DecidableEq κ] : List (κ × α) → κ → Option α
  | [], _ => none
  | (k, v) :: rest, k' => if k' = k then some v else lookupA rest k'

/-- Insert into an association list: replace the first binding in place if
the key is present, else append.  This matches UnorderedMap insert, which
overwrites the value but keeps the key's position in the iteration order
and appends new keys at the end. -/
def insertA {κ α : Type} [DecidableEq κ] : List (κ × α) → κ → α → List (κ × α)
  | [], k, v => [(k, v)]
  | (k0, v0) :: rest, k, v =>
    if k = k0 then (k0, v) :: rest else (k0, v0) :: insertA rest k v

/-- Remove a key from an association list, the embedding of
UnorderedMap remove. -/
def eraseA {κ α : Type} [DecidableEq κ] : List (κ × α) → κ → List (κ × α)
  | [], _ => []
  | (k0, v0) :: rest, k =>
    if k = k0 then rest else (k0, v0) :: eraseA rest k

/-- Vector::swap_remove from near-sdk: element `i` is replaced by the last
element and the last element is popped. -/
def swapRemove (l : List Nat) (i : Nat) : List Nat :=
  match l.getLast? with
  | none => l
  | some x => (l.set i x).dropLast

namespace Compute

def MIN_STAKE_YOCTO : Nat := 1000000000000000000000000

def STORAGE_COST : Nat := 1000000000000000000000

def ONE_YOCTO : Nat := 1

def HEARTBEAT_TIMEOUT : Nat := 300000000000

def MAX_REPUTATION : Nat := 1000

def REPUTATION_GAIN : Nat := 10

def REPUTATION_LOSS : Nat := 50

def MAX_TASK_TIMEOUT : Nat := 3600000000000

inductive TaskStatus where
  | Pending
  | Assigned
  | InProgress
  | Completed
  | Failed
  | TimedOut
  | Disputed
deriving DecidableEq, Repr

inductive TaskPriority where
  | Low
  | Normal
  | High
  | Urgent
deriving DecidableEq, Repr

structure NodeInfo where
  account_id : String
  stake : Nat
  public_ip : String
  gpu_specs : String
  cpu_specs : String
  api_endpoint : String
  is_active : Bool
  last_heartbeat : Nat
  total_tasks_completed : Nat
  reputation_score : Nat
  slashed_amount : Nat
  registration_time : Nat
deriving DecidableEq, Repr

structure Task where
  id : Nat
  description : String
  assignee : Option String
  status : TaskStatus
  output : Option String
  proof_hash : Option String
  created_at : Nat
  completed_at : Option Nat
  assigned_at : Option Nat
  timeout_at : Option Nat
  reward_amount : Nat
  requester : String
  priority : TaskPriority
deriving DecidableEq, Repr

/-- The NEP-141 fungible-token ledger from near-contract-standards, reduced
to the pieces the contract uses: per-account balances and the total
supply. -/
structure FungibleToken where
  accounts : List (String × Nat)
  total_supply : Nat
deriving DecidableEq, Repr

structure DeAICompute where
  nodes : List (String × NodeInfo)
  active_tasks : List (Nat × Task)
  completed_tasks : List (Nat × Task)
  pending_tasks : List Nat
  task_counter : Nat
  token : FungibleToken
  min_stake : Nat
  total_rewards_distributed : Nat
  owner_id : String
  paused : Bool
  max_tasks_per_node : Nat
  task_timeout_duration : Nat
deriving DecidableEq, Repr

/-- The per-call NEAR environment: predecessor account, attached deposit in
yoctoNEAR, and block timestamp in nanoseconds. -/
structure Env where
  predecessor : String
  deposit : Nat
  timestamp : Nat
deriving DecidableEq, Repr

/-- Typed abort reasons, one per require! / expect / panic site reached by
the embedded operations. -/
inductive CErr where
  | Paused
  | OwnerOnly
  | OneYocto
  | InsufficientStake
  | AlreadyRegistered
  | EmptyIP
  | EmptyEndpoint
  | SpecTooLong
  | IPTaken
  | NodeNotRegistered
  | AlreadyInactive
  | HasActiveTasks
  | InsufficientPayment
  | EmptyDescription
  | DescriptionTooLong
  | ZeroCost
  | TaskNotFound
  | NotAssignee
  | TaskNotActive
  | EmptyProof
  | EmptyOutput
  | ProofTooLong
  | OutputTooLong
  | TaskTimedOut
  | NotTimedOutYet
  | SelfTransfer
  | ZeroAmount
  | InsufficientBalance
  | AccountNotRegistered
  | InvalidArgument
  | AlreadyPaused
  | NotPaused
deriving DecidableEq, Repr

/-- FungibleToken::internal_register_account: initialize a zero balance. -/
def FungibleToken.internal_register_account (t : FungibleToken) (a : String) : FungibleToken :=
  { t with accounts := insertA t.accounts a 0 }

/-- FungibleToken::internal_deposit: add to the account balance and the
total supply; aborts when the account is unregistered. -/
def FungibleToken.internal_deposit (t : FungibleToken) (a : String) (amount : Nat) :
    Except CErr FungibleToken :=
  match lookupA t.accounts a with
  | none => .error .AccountNotRegistered
  | some bal =>
      .ok { accounts := insertA t.accounts a (bal + amount),
            total_supply := t.total_supply + amount }

/-- FungibleToken::ft_transfer body (after the 1-yocto check): move
`amount` from the sender to the receiver. -/
def FungibleToken.ft_transfer_core (t : FungibleToken) (sender receiver : String)
    (amount : Nat) : Except CErr FungibleToken :=
  if sender = receiver then .error .SelfTransfer
  else if amount = 0 then .error .ZeroAmount
  else
    match lookupA t.accounts sender with
    | none => .error .AccountNotRegistered
    | some sbal =>
        if sbal < amount then .error .InsufficientBalance
        else
          match lookupA (insertA t.accounts sender (sbal - amount)) receiver with
          | none => .error .AccountNotRegistered
          | some rbal =>
              .ok { accounts :=
                      insertA (insertA t.accounts sender (sbal - amount)) receiver
                        (rbal + amount),
                    total_supply := t.total_supply }

/-- Statuses the contract treats as an active assignment. -/
def statusActive : TaskStatus → Bool
  | .Assigned => true
  | .InProgress => true
  | _ => false

/-- DeAICompute::get_node_active_task_count: count active tasks assigned to
the node. -/
def get_node_active_task_count (st : DeAICompute) (node_id : String) : Nat :=
  st.active_tasks.countP
    (fun p => p.2.assignee == some node_id && statusActive p.2.status)

/-- DeAICompute::node_has_active_task. -/
def node_has_active_task (st : DeAICompute) (node_id : String) : Bool :=
  get_node_active_task_count st node_id != 0

/-- DeAICompute::get_available_node: scan nodes in iteration (insertion)
order keeping the strictly-highest-reputation live node with spare
capacity. -/
def get_available_node (st : DeAICompute) (current_time : Nat) : Option String :=
  (st.nodes.foldl
    (fun acc p =>
      if p.2.is_active
          && current_time - p.2.last_heartbeat < HEARTBEAT_TIMEOUT
          && p.2.reputation_score > acc.2
          && get_node_active_task_count st p.1 < st.max_tasks_per_node
      then (some p.1, p.2.reputation_score)
      else acc)
    ((none : Option String), 0)).1

/-- DeAICompute::priority_value. -/
def priority_value : TaskPriority → Nat
  | .Low => 1
  | .Normal => 2
  | .High => 3
  | .Urgent => 4

/-- The pending-task scan inside DeAICompute::try_assign_next_task, as the
source's indexed for-loop: `i` is the index of the head of the remaining
list, `acc` the best (index, priority) so far.  A Pending task replaces
the best only when its priority value is strictly greater (or nothing was
picked yet), so ties keep the earlier index. -/
def find_best_scan (st : DeAICompute) :
    Nat → List Nat → Option (Nat × TaskPriority) → Option (Nat × TaskPriority)
  | _, [], acc => acc
  | i, tid :: rest, acc =>
      let next :=
        match lookupA st.active_tasks tid with
        | some task =>
            if task.status = TaskStatus.Pending then
              match acc with
              | none => some (i, task.priority)
              | some best =>
                  if priority_value task.priority > priority_value best.2 then
                    some (i, task.priority)
                  else acc
            else acc
        | none => acc
      find_best_scan st (i + 1) rest next

/-- The scan over the whole pending vector, from index 0. -/
def find_best_pending (st : DeAICompute) : Option (Nat × TaskPriority) :=
  find_best_scan st 0 st.pending_tasks none

/-- DeAICompute::try_assign_next_task. -/
def try_assign_next_task (st : DeAICompute) (ts : Nat) : DeAICompute :=
  match get_available_node st ts with
  | none => st
  | some available_node =>
      match find_best_pending st with
      | none => st
      | some best =>
          match st.pending_tasks.get? best.1 with
          | none => st
          | some task_id =>
              let pending' := swapRemove st.pending_tasks best.1
              match lookupA st.active_tasks task_id with
              | none => { st with pending_tasks := pending' }
              | some task =>
                  let updated_task := { task with
                    assignee := some available_node,
                    status := .Assigned,
                    assigned_at := some ts,
                    timeout_at := some (ts + st.task_timeout_duration) }
                  { st with
                    pending_tasks := pending',
                    active_tasks := insertA st.active_tasks task_id updated_task }

/-- DeAICompute::register_node. -/
def register_node (st : DeAICompute) (e : Env)
    (public_ip gpu_specs cpu_specs api_endpoint : String) : Except CErr DeAICompute :=
  if st.paused then .error .Paused
  else if e.deposit < st.min_stake then .error .InsufficientStake
  else if (lookupA st.nodes e.predecessor).isSome then .error .AlreadyRegistered
  else if public_ip = "" then .error .EmptyIP
  else if api_endpoint = "" then .error .EmptyEndpoint
  else if gpu_specs.length > 500 then .error .SpecTooLong
  else if cpu_specs.length > 500 then .error .SpecTooLong
  else if api_endpoint.length > 200 then .error .SpecTooLong
  else if st.nodes.any (fun p => p.2.public_ip == public_ip) then .error .IPTaken
  else
    let node_info : NodeInfo :=
      { account_id := e.predecessor,
        stake := e.deposit,
        public_ip := public_ip,
        gpu_specs := gpu_specs,
        cpu_specs := cpu_specs,
        api_endpoint := api_endpoint,
        is_active := true,
        last_heartbeat := e.timestamp,
        total_tasks_completed := 0,
        reputation_score := 100,
        slashed_amount := 0,
        registration_time := e.timestamp }
    let token' :=
      if (lookupA st.token.accounts e.predecessor).isSome then st.token
      else st.token.internal_register_account e.predecessor
    .ok { st with nodes := insertA st.nodes e.predecessor node_info, token := token' }

/-- DeAICompute::heartbeat. -/
def heartbeat (st : DeAICompute) (e : Env) : Except CErr DeAICompute :=
  if st.paused then .error .Paused
  else
    match lookupA st.nodes e.predecessor with
    | none => .error .NodeNotRegistered
    | some node =>
        .ok { st with
              nodes := insertA st.nodes e.predecessor
                { node with last_heartbeat := e.timestamp, is_active := true } }

/-- DeAICompute::deactivate_node.  The native NEAR refund Promise is
outside the modelled state. -/
def deactivate_node (st : DeAICompute) (e : Env) : Except CErr DeAICompute :=
  if e.deposit ≠ ONE_YOCTO then .error .OneYocto
  else
    match lookupA st.nodes e.predecessor with
    | none => .error .NodeNotRegistered
    | some node =>
        if !node.is_active then .error .AlreadyInactive
        else if node_has_active_task st e.predecessor then .error .HasActiveTasks
        else
          .ok { st with
                nodes := insertA st.nodes e.predecessor { node with is_active := false } }

/-- DeAICompute::submit_task. -/
def submit_task (st : DeAICompute) (e : Env) (description : String)
    (estimated_compute_cost : Nat) (priority : Option TaskPriority) :
    Except CErr DeAICompute :=
  if st.paused then .error .Paused
  else if e.deposit < estimated_compute_cost + STORAGE_COST then .error .InsufficientPayment
  else if description = "" then .error .EmptyDescription
  else if description.length > 1000 then .error .DescriptionTooLong
  else if estimated_compute_cost = 0 then .error .ZeroCost
  else
    let token' :=
      if (lookupA st.token.accounts e.predecessor).isSome then st.token
      else st.token.internal_register_account e.predecessor
    let task : Task :=
      { id := st.task_counter,
        description := description,
        assignee := none,
        status := .Pending,
        output := none,
        proof_hash := none,
        created_at := e.timestamp,
        completed_at := none,
        assigned_at := none,
        timeout_at := none,
        reward_amount := estimated_compute_cost,
        requester := e.predecessor,
        priority := priority.getD .Normal }
    let st1 :=
      { st with
        token := token',
        active_tasks := insertA st.active_tasks st.task_counter task,
        pending_tasks := st.pending_tasks ++ [st.task_counter],
        task_counter := st.task_counter + 1 }
    .ok (try_assign_next_task st1 e.timestamp)

/-- DeAICompute::submit_result. -/
def submit_result (st : DeAICompute) (e : Env) (task_id : Nat)
    (proof_hash output : String) : Except CErr DeAICompute :=
  if e.deposit ≠ ONE_YOCTO then .error .OneYocto
  else
    match lookupA st.active_tasks task_id with
    | none => .error .TaskNotFound
    | some task =>
        if task.assignee ≠ some e.predecessor then .error .NotAssignee
        else if !statusActive task.status then .error .TaskNotActive
        else if proof_hash = "" then .error .EmptyProof
        else if output = "" then .error .EmptyOutput
        else if proof_hash.length > 64 then .error .ProofTooLong
        else if output.length > 10000 then .error .OutputTooLong
        else if (match task.timeout_at with
                 | some t => decide (t < e.timestamp)
                 | none => false) then .error .TaskTimedOut
        else
          let task' := { task with
            status := .Completed,
            output := some output,
            proof_hash := some proof_hash,
            completed_at := some e.timestamp }
          match lookupA st.nodes e.predecessor with
          | none => .error .NodeNotRegistered
          | some node =>
              let node' := { node with
                total_tasks_completed := node.total_tasks_completed + 1,
                reputation_score :=
                  min MAX_REPUTATION (node.reputation_score + REPUTATION_GAIN) }
              match st.token.internal_deposit e.predecessor task.reward_amount with
              | .error err => .error err
              | .ok token' =>
                  let st2 :=
                    { st with
                      nodes := insertA st.nodes e.predecessor node',
                      token := token',
                      total_rewards_distributed :=
                        st.total_rewards_distributed + task.reward_amount,
                      active_tasks := eraseA st.active_tasks task_id,
                      completed_tasks := insertA st.completed_tasks task_id task' }
                  .ok (try_assign_next_task st2 e.timestamp)

/-- DeAICompute::timeout_task.  AccountId::parse of a stored assignee
string always succeeds in the embedding; the refund Promise is outside the
modelled state. -/
def timeout_task (st : DeAICompute) (e : Env) (task_id : Nat) :
    Except CErr DeAICompute :=
  if e.deposit ≠ ONE_YOCTO then .error .OneYocto
  else
    match lookupA st.active_tasks task_id with
    | none => .error .TaskNotFound
    | some task =>
        if !statusActive task.status then .error .TaskNotActive
        else if (match task.timeout_at with
                 | some t => decide (e.timestamp ≤ t)
                 | none => false) then .error .NotTimedOutYet
        else
          let nodes' :=
            match task.assignee with
            | none => st.nodes
            | some assignee =>
                match lookupA st.nodes assignee with
                | none => st.nodes
                | some node =>
                    insertA st.nodes assignee
                      { node with
                        reputation_score := node.reputation_score - REPUTATION_LOSS,
                        slashed_amount := node.slashed_amount + node.stake / 10 }
          let task' := { task with status := .TimedOut, completed_at := some e.timestamp }
          .ok { st with
                nodes := nodes',
                active_tasks := eraseA st.active_tasks task_id,
                completed_tasks := insertA st.completed_tasks task_id task' }

/-- DeAICompute::ft_transfer (the memo argument carries no semantics). -/
def ft_transfer (st : DeAICompute) (e : Env) (receiver_id : String) (amount : Nat) :
    Except CErr DeAICompute :=
  if e.deposit ≠ ONE_YOCTO then .error .OneYocto
  else
    match st.token.ft_transfer_core e.predecessor receiver_id amount with
    | .error err => .error err
    | .ok token' => .ok { st with token := token' }

/-- DeAICompute::pause_contract. -/
def pause_contract (st : DeAICompute) (e : Env) : Except CErr DeAICompute :=
  if e.predecessor ≠ st.owner_id then .error .OwnerOnly
  else if e.deposit ≠ ONE_YOCTO then .error .OneYocto
  else if st.paused then .error .AlreadyPaused
  else .ok { st with paused := true }

/-- DeAICompute::unpause_contract. -/
def unpause_contract (st : DeAICompute) (e : Env) : Except CErr DeAICompute :=
  if e.predecessor ≠ st.owner_id then .error .OwnerOnly
  else if e.deposit ≠ ONE_YOCTO then .error .OneYocto
  else if !st.paused then .error .NotPaused
  else .ok { st with paused := false }

/-- DeAICompute::update_min_stake. -/
def update_min_stake (st : DeAICompute) (e : Env) (new_min_stake : Nat) :
    Except CErr DeAICompute :=
  if e.predecessor ≠ st.owner_id then .error .OwnerOnly
  else if e.deposit ≠ ONE_YOCTO then .error .OneYocto
  else if new_min_stake = 0 then .error .InvalidArgument
  else .ok { st with min_stake := new_min_stake }

/-- DeAICompute::update_max_tasks_per_node. -/
def update_max_tasks_per_node (st : DeAICompute) (e : Env) (max_tasks : Nat) :
    Except CErr DeAICompute :=
  if e.predecessor ≠ st.owner_id then .error .OwnerOnly
  else if e.deposit ≠ ONE_YOCTO then .error .OneYocto
  else if max_tasks = 0 || max_tasks > 100 then .error .InvalidArgument
  else .ok { st with max_tasks_per_node := max_tasks }

/-- DeAICompute::update_task_timeout. -/
def update_task_timeout (st : DeAICompute) (e : Env) (timeout_duration : Nat) :
    Except CErr DeAICompute :=
  if e.predecessor ≠ st.owner_id then .error .OwnerOnly
  else if e.deposit ≠ ONE_YOCTO then .error .OneYocto
  else if timeout_duration < 300000000000 then .error .InvalidArgument
  else if timeout_duration > 86400000000000 then .error .InvalidArgument
  else .ok { st with task_timeout_duration := timeout_duration }

/-- DeAICompute::new. -/
def DeAICompute.new (owner_id : String) : DeAICompute :=
  { nodes := [],
    active_tasks := [],
    completed_tasks := [],
    pending_tasks := [],
    task_counter := 0,
    token := (FungibleToken.mk [] 0).internal_register_account owner_id,
    min_stake := MIN_STAKE_YOCTO,
    total_rewards_distributed := 0,
    owner_id := owner_id,
    paused := false,
    max_tasks_per_node := 5,
    task_timeout_duration := MAX_TASK_TIMEOUT }

/-- One mutating entry point of the coordinator together with its
arguments. -/
inductive Call where
  | register (public_ip gpu_specs cpu_specs api_endpoint : String)
  | heartbeat
  | deactivate
  | submitTask (description : String) (cost : Nat) (priority : Option TaskPriority)
  | submitResult (task_id : Nat) (proof_hash output : String)
  | timeoutTask (task_id : Nat)
  | ftTransfer (receiver : String) (amount : Nat)
  | pauseContract
  | unpauseContract
  | updateMinStake (n : Nat)
  | updateMaxTasksPerNode (n : Nat)
  | updateTaskTimeout (d : Nat)
deriving DecidableEq, Repr

/-- Dispatch one call against the contract state. -/
def exec (st : DeAICompute) (e : Env) : Call → Except CErr DeAICompute
  | .register ip gpu cpu ep => register_node st e ip gpu cpu ep
  | .heartbeat => heartbeat st e
  | .deactivate => deactivate_node st e
  | .submitTask d c p => submit_task st e d c p
  | .submitResult id ph out => submit_result st e id ph out
  | .timeoutTask id => timeout_task st e id
  | .ftTransfer r a => ft_transfer st e r a
  | .pauseContract => pause_contract st e
  | .unpauseContract => unpause_contract st e
  | .updateMinStake n => update_min_stake st e n
  | .updateMaxTasksPerNode n => update_max_tasks_per_node st e n
  | .updateTaskTimeout d => update_task_timeout st e d

/-- NEAR transactional semantics: a panicking call reverts to the
pre-state. -/
def step (st : DeAICompute) (p : Env × Call) : DeAICompute :=
  match exec st p.1 p.2 with
  | .ok st' => st'
  | .error _ => st

def run (st : DeAICompute) (ops : List (Env × Call)) : DeAICompute :=
  ops.foldl step st

/-- States reachable from a freshly initialized contract by a sequence of
calls. -/
def reachable (owner : String) (ops : List (Env × Call)) : DeAICompute :=
  run (DeAICompute.new owner) ops

end Compute

namespace Gateway

/-- The gateway user fields the JWT claims read
(src/api-gateway/src/auth.rs). -/
structure User where
  id : String
  username : String
  near_account_id : Option String
deriving DecidableEq, Repr

structure Claims where
  sub : String
  username : String
  account_id : Option String
  exp : Nat
  iat : Nat
  token_type : String
deriving DecidableEq, Repr

/-- Claims::new with the wall clock (Utc::now, in unix seconds) passed
explicitly. -/
def Claims.new (user : User) (token_type : String) (duration_hours : Nat)
    (now : Nat) : Claims :=
  { sub := user.id,
    username := user.username,
    account_id := user.near_account_id,
    exp := now + 3600 * duration_hours,
    iat := now,
    token_type := token_type }

/-- create_jwt_token's claims construction: 24 * 30 hours for API keys,
24 hours otherwise. -/
def create_jwt_claims (user : User) (token_type : String) (now : Nat) : Claims :=
  let duration := if token_type = "api_key" then 24 * 30 else 24
  Claims.new user token_type duration now

structure RateLimitConfig where
  requests_per_minute : Nat
  requests_per_hour : Nat
  requests_per_day : Nat
  burst_limit : Nat
deriving DecidableEq, Repr

structure RateLimitInfo where
  limit : Nat
  remaining : Nat
  reset_time : Nat
  retry_after : Option Nat
deriving DecidableEq, Repr

def defaultConfig : RateLimitConfig := ⟨60, 1000, 10000, 10⟩

def freeTier : RateLimitConfig := ⟨30, 500, 2000, 5⟩

def proTier : RateLimitConfig := ⟨120, 5000, 50000, 20⟩

def enterpriseTier : RateLimitConfig := ⟨600, 20000, 200000, 50⟩

def ipConfig : RateLimitConfig := ⟨100, 2000, 20000, 20⟩

/-- RateLimiter::check_memory_rate_limit for one identifier: the stored
timestamp list is retained to the last hour, the current request is
pushed, and the sliding minute and hour counts are compared to the
limits. -/
def check_memory_rate_limit (store : List Nat) (now : Nat)
    (config : RateLimitConfig) : List Nat × RateLimitInfo :=
  let requests := store.filter (fun t => now - t < 3600) ++ [now]
  let minute_requests := (requests.filter (fun t => now - t < 60)).length
  let hour_requests := requests.length
  if minute_requests > config.requests_per_minute then
    (requests, ⟨config.requests_per_minute, 0, now + 60, some 60⟩)
  else if hour_requests > config.requests_per_hour then
    (requests, ⟨config.requests_per_hour, 0, now + 3600, some 3600⟩)
  else
    (requests,
      ⟨config.requests_per_minute,
        min (config.requests_per_minute - minute_requests)
          (config.requests_per_hour - hour_requests),
        now + 60, none⟩)

/-- The Redis keys touched by one identifier: one counter per epoch bucket
for each horizon, plus the burst sorted set (a set of unix-second
timestamps, since member and score are both `now`). -/
structure RedisState where
  minuteC : List (Nat × Nat)
  hourC : List (Nat × Nat)
  dayC : List (Nat × Nat)
  burst : List Nat
deriving DecidableEq, Repr

/-- Redis INCR: bump the counter at a key, creating it at 1. -/
def incr (m : List (Nat × Nat)) (k : Nat) : Nat × List (Nat × Nat) :=
  match lookupA m k with
  | none => (1, insertA m k 1)
  | some c => (c + 1, insertA m k (c + 1))

/-- Redis ZADD with member = score = `t`: sorted sets hold each member
once. -/
def zadd (s : List Nat) (t : Nat) : List Nat :=
  if s.contains t then s else s ++ [t]

/-- RateLimiter::check_redis_rate_limit for one identifier.  Key TTLs
never fire between two calls that land in the same epoch bucket (each TTL
equals its horizon and is set on bucket creation; the burst TTL is
refreshed every call), so expiry is not modelled. -/
def check_redis_rate_limit (st : RedisState) (now : Nat)
    (config : RateLimitConfig) : RedisState × RateLimitInfo :=
  let m := incr st.minuteC (now / 60)
  let st1 := { st with minuteC := m.2 }
  if m.1 > config.requests_per_minute then
    (st1, ⟨config.requests_per_minute, 0, (now / 60 + 1) * 60, some (60 - now % 60)⟩)
  else
    let h := incr st.hourC (now / 3600)
    let st2 := { st1 with hourC := h.2 }
    if h.1 > config.requests_per_hour then
      (st2, ⟨config.requests_per_hour, 0, (now / 3600 + 1) * 3600,
        some (3600 - now % 3600)⟩)
    else
      let d := incr st.dayC (now / 86400)
      let st3 := { st2 with dayC := d.2 }
      if d.1 > config.requests_per_day then
        (st3, ⟨config.requests_per_day, 0, (now / 86400 + 1) * 86400,
          some (86400 - now % 86400)⟩)
      else
        let b := (zadd st.burst now).filter (fun t => now - 60 < t)
        let st4 := { st3 with burst := b }
        if b.length > config.burst_limit then
          (st4, ⟨config.burst_limit, 0, now + 60, some 60⟩)
        else
          (st4,
            ⟨config.requests_per_minute,
              min (config.requests_per_minute - m.1)
                (min (config.requests_per_hour - h.1)
                  (config.requests_per_day - d.1)),
              (now / 60 + 1) * 60, none⟩)

end Gateway

/-- Sum of all balances in a token account list. -/
def sumBalances (l : List (String × Nat)) : Nat :=
  (l.map (fun p => p.2)).sum

/-- Whether an Except value is a success. -/
def exceptOk {ε α : Type} : Except ε α → Bool
  | .ok _ => true
  | .error _ => false

namespace Compute

/-- Number of timeout_task calls in a trace. -/
def countTimeouts (ops : List (Env × Call)) : Nat :=
  ops.countP (fun p =>
    match p.2 with
    | .timeoutTask _ => true
    | _ => false)

/-- The entry at position `k` of a pending-id list is a Pending task of
priority `q` in the active table. -/
def validAt (st : DeAICompute) (l : List Nat) (k : Nat) (q : TaskPriority) : Prop :=
  ∃ tid task, l.get? k = some tid ∧ lookupA st.active_tasks tid = some task ∧
    task.status = TaskStatus.Pending ∧ task.priority = q

/-- A trace that reaches a paused contract holding an assigned task: node
n registers, requester r submits task 0 (auto-assigned to n), and the
owner o pauses. -/
def c1Trace : List (Env × Call) :=
  [(⟨"n", MIN_STAKE_YOCTO, 0⟩, .register "ip" "g" "c" "e"),
   (⟨"r", 1 + STORAGE_COST, 0⟩, .submitTask "d" 1 none),
   (⟨"o", 1, 0⟩, .pauseContract)]

def c1State : DeAICompute := reachable "o" c1Trace

def c1After : DeAICompute := step c1State (⟨"n", 1, 0⟩, .submitResult 0 "p" "out")

/-- Forty-one submit/complete round trips for node n, each raising its
reputation by 10 (100 up to 510), consuming task ids 0..40. -/
def c3Pump : List (Env × Call) :=
  (List.range 41).flatMap (fun i =>
    [(⟨"r", 1 + STORAGE_COST, 0⟩, .submitTask "d" 1 none),
     (⟨"n", 1, 0⟩, .submitResult i "p" "o")])

/-- Reputation-pumping trace that then lets eleven assigned tasks time
out against node n: five tasks assigned at t=0 and timed out, five
assigned after a heartbeat and timed out, one more assigned and timed
out.  Each timeout adds stake/10 to slashed_amount, ending at
11 * stake / 10 > stake. -/
def c3Trace : List (Env × Call) :=
  [(⟨"n", MIN_STAKE_YOCTO, 0⟩, .register "ip" "g" "c" "e")]
  ++ c3Pump
  ++ List.replicate 5 ((⟨"r", 1 + STORAGE_COST, 0⟩ : Env), Call.submitTask "d" 1 none)
  ++ (List.range 5).map (fun j => (⟨"x", 1, 3600000000001⟩, Call.timeoutTask (41 + j)))
  ++ [(⟨"n", 0, 3600000000001⟩, Call.heartbeat)]
  ++ List.replicate 5
      ((⟨"r", 1 + STORAGE_COST, 3600000000001⟩ : Env), Call.submitTask "d" 1 none)
  ++ (List.range 5).map (fun j => (⟨"x", 1, 7200000000002⟩, Call.timeoutTask (46 + j)))
  ++ [(⟨"n", 0, 7200000000002⟩, Call.heartbeat),
      (⟨"r", 1 + STORAGE_COST, 7200000000002⟩, Call.submitTask "d" 1 none),
      (⟨"x", 1, 10800000000003⟩, Call.timeoutTask 51)]

/-- A trace leaving the pending vector reordered by swap_remove: node n
is saturated with tasks 0..4, tasks 5 (Urgent), 6 and 7 (Normal) queue
up, and completing task 0 assigns task 5 from index 0, swapping task 7
in front of task 6. -/
def c5Pre : List (Env × Call) :=
  [(⟨"n", MIN_STAKE_YOCTO, 0⟩, .register "ip" "g" "c" "e")]
  ++ List.replicate 5 ((⟨"r", 1 + STORAGE_COST, 0⟩ : Env), Call.submitTask "d" 1 none)
  ++ [(⟨"r", 1 + STORAGE_COST, 0⟩, Call.submitTask "d" 1 (some .Urgent)),
      (⟨"r", 1 + STORAGE_COST, 0⟩, Call.submitTask "d" 1 (some .Normal)),
      (⟨"r", 1 + STORAGE_COST, 0⟩, Call.submitTask "d" 1 (some .Normal)),
      (⟨"n", 1, 0⟩, Call.submitResult 0 "p" "o")]

def c5Before : DeAICompute := reachable "o" c5Pre

def c5After : DeAICompute := step c5Before (⟨"n", 1, 0⟩, Call.submitResult 1 "p" "o")

end Compute

namespace Gateway

/-- Thirty-one request timestamps (101..131), all inside the hour window
and the minute bucket [60, 120) of the free tier example. -/
def c9Store : List Nat := (List.range 31).map (fun i => 101 + i)

def c9CallA : List Nat × RateLimitInfo := check_memory_rate_limit c9Store 160 freeTier

def c9CallB : List Nat × RateLimitInfo := check_memory_rate_limit c9CallA.1 179 freeTier

def c8User : User := { id := "u1", username := "alice", near_account_id := none }

end Gateway

namespace Compute

/-- Token conservation: the supply equals the sum of balances and the
total rewards ever minted. -/
def TokenInv (st : DeAICompute) : Prop :=
  sumBalances st.token.accounts = st.token.total_supply ∧
  st.token.total_supply = st.total_rewards_distributed

/-- A single registration, used to instantiate the invariant theorems. -/
def regTrace : List (Env × Call) :=
  [(⟨"n", MIN_STAKE_YOCTO, 0⟩, .register "ip" "g" "c" "e")]

/-- The node record created by regTrace. -/
def regNode : NodeInfo :=
  { account_id := "n",
    stake := MIN_STAKE_YOCTO,
    public_ip := "ip",
    gpu_specs := "g",
    cpu_specs := "c",
    api_endpoint := "e",
    is_active := true,
    last_heartbeat := 0,
    total_tasks_completed := 0,
    reputation_score := 100,
    slashed_amount := 0,
    registration_time := 0 }

/-- Registration followed by one task submission, which the scheduler
immediately assigns to node n with a one-hour deadline. -/
def assignTrace : List (Env × Call) :=
  [(⟨"n", MIN_STAKE_YOCTO, 0⟩, .register "ip" "g" "c" "e"),
   (⟨"r", 1 + STORAGE_COST, 0⟩, .submitTask "d" 1 none)]

def assignState : DeAICompute := reachable "o" assignTrace

/-- The record of task 0 after assignTrace. -/
def assignTask : Task :=
  { id := 0,
    description := "d",
    assignee := some "n",
    status := .Assigned,
    output := none,
    proof_hash := none,
    created_at := 0,
    completed_at := none,
    assigned_at := some 0,
    timeout_at := some MAX_TASK_TIMEOUT,
    reward_amount := 1,
    requester := "r",
    priority := .Normal }

/-- Registration followed by deactivation: the stake (minus zero slash)
is refunded and the node is marked inactive. -/
def deacTrace : List (Env × Call) :=
  [(⟨"n", MIN_STAKE_YOCTO, 0⟩, .register "ip" "g" "c" "e"),
   (⟨"n", 1, 0⟩, .deactivate)]

def deacState : DeAICompute := reachable "o" deacTrace

def deacNode : NodeInfo := { regNode with is_active := false }

end Compute

section AssocLemmas

variable {κ α : Type} [DecidableEq κ]

theorem lookupA_insertA_self (l : List (κ × α)) (k : κ) (v : α) :
    lookupA (insertA l k v) k = some v := by
  induction l with
  | nil => simp [insertA, lookupA]
  | cons hd tl ih =>
      by_cases hk : k = hd.1
      · simp [insertA, hk, lookupA]
      · simpa [insertA, hk, lookupA] using ih

theorem lookupA_insertA_ne (l : List (κ × α)) (k a : κ) (v : α) (h : a ≠ k) :
    lookupA (insertA l k v) a = lookupA l a := by
  induction l with
  | nil => simp [insertA, lookupA, h]
  | cons hd tl ih =>
      by_cases hk : k = hd.1
      · subst hk
        simp [insertA, lookupA, h]
      · by_cases ha : a = hd.1
        · simp [insertA, hk, lookupA, ha]
        · simpa [insertA, hk, lookupA, ha] using ih

theorem lookupA_insertA_cases (l : List (κ × α)) (k a : κ) (v w : α)
    (h : lookupA (insertA l k v) a = some w) :
    (a = k ∧ w = v) ∨ (a ≠ k ∧ lookupA l a = some w) := by
  by_cases ha : a = k
  · subst ha
    rw [lookupA_insertA_self] at h
    exact Or.inl ⟨rfl, (Option.some_injective _ h).symm⟩
  · rw [lookupA_insertA_ne l k a v ha] at h
    exact Or.inr ⟨ha, h⟩

theorem lookupA_eraseA_ne (l : List (κ × α)) (k a : κ) (h : a ≠ k) :
    lookupA (eraseA l k) a = lookupA l a := by
  induction l with
  | nil => simp [eraseA]
  | cons hd tl ih =>
      by_cases hk : k = hd.1
      · subst hk
        simp [eraseA, lookupA, h]
      · by_cases ha : a = hd.1
        · simp [eraseA, hk, lookupA, ha]
        · simpa [eraseA, hk, lookupA, ha] using ih

theorem lookupA_eq_none_of_not_mem (l : List (κ × α)) (k : κ)
    (h : k ∉ l.map Prod.fst) : lookupA l k = none := by
  induction l with
  | nil => rfl
  | cons hd tl ih =>
      simp only [List.map_cons, List.mem_cons, not_or] at h
      rw [lookupA, if_neg h.1]
      exact ih h.2

theorem lookupA_eraseA_self (l : List (κ × α)) (k : κ)
    (hnd : (l.map Prod.fst).Nodup) : lookupA (eraseA l k) k = none := by
  induction l with
  | nil => rfl
  | cons hd tl ih =>
      simp only [List.map_cons, List.nodup_cons] at hnd
      by_cases hk : k = hd.1
      · subst hk
        simp only [eraseA, if_pos rfl]
        exact lookupA_eq_none_of_not_mem tl hd.1 hnd.1
      · simp only [eraseA, if_neg hk, lookupA, if_neg hk]
        exact ih hnd.2

theorem lookupA_insertA_none_of_some (l : List (κ × α)) (tid k : κ) (v w : α)
    (hlook : lookupA l tid = some v) (h : lookupA l k = none) :
    lookupA (insertA l tid w) k = none := by
  have hne : k ≠ tid := by
    intro he
    rw [he, hlook] at h
    cases h
  rw [lookupA_insertA_ne _ _ _ _ hne]
  exact h

theorem sumBalances_insertA_some (l : List (String × Nat)) (k : String) (v w : Nat)
    (h : lookupA l k = some v) :
    sumBalances (insertA l k w) + v = sumBalances l + w := by
  induction l with
  | nil => simp [lookupA] at h
  | cons hd tl ih =>
      by_cases hk : k = hd.1
      · rw [lookupA, if_pos hk] at h
        obtain rfl : hd.2 = v := Option.some_injective _ h
        simp only [insertA, if_pos hk, sumBalances, List.map_cons, List.sum_cons]
        omega
      · rw [lookupA, if_neg hk] at h
        have := ih h
        simp only [insertA, if_neg hk, sumBalances, List.map_cons, List.sum_cons]
        simp only [sumBalances] at this
        omega

theorem sumBalances_insertA_none (l : List (String × Nat)) (k : String) (w : Nat)
    (h : lookupA l k = none) :
    sumBalances (insertA l k w) = sumBalances l + w := by
  induction l with
  | nil => simp [insertA, sumBalances]
  | cons hd tl ih =>
      by_cases hk : k = hd.1
      · rw [lookupA, if_pos hk] at h
        exact absurd h (by simp)
      · rw [lookupA, if_neg hk] at h
        have := ih h
        simp only [insertA, if_neg hk, sumBalances, List.map_cons, List.sum_cons]
        simp only [sumBalances] at this
        omega

end AssocLemmas

namespace Compute


theorem try_assign_token (st : DeAICompute) (ts : Nat) :
    (try_assign_next_task st ts).token = st.token := by
  unfold try_assign_next_task
  split
  · rfl
  · split
    · rfl
    · split
      · rfl
      · split
        · rfl
        · rfl

theorem try_assign_rewards (st : DeAICompute) (ts : Nat) :
    (try_assign_next_task st ts).total_rewards_distributed =
      st.total_rewards_distributed := by
  unfold try_assign_next_task
  split
  · rfl
  · split
    · rfl
    · split
      · rfl
      · split
        · rfl
        · rfl

theorem try_assign_nodes (st : DeAICompute) (ts : Nat) :
    (try_assign_next_task st ts).nodes = st.nodes := by
  unfold try_assign_next_task
  split
  · rfl
  · split
    · rfl
    · split
      · rfl
      · split
        · rfl
        · rfl

theorem try_assign_completed (st : DeAICompute) (ts : Nat) :
    (try_assign_next_task st ts).completed_tasks = st.completed_tasks := by
  unfold try_assign_next_task
  split
  · rfl
  · split
    · rfl
    · split
      · rfl
      · split
        · rfl
        · rfl

theorem try_assign_active_none (st : DeAICompute) (ts : Nat) (k : Nat)
    (h : lookupA st.active_tasks k = none) :
    lookupA (try_assign_next_task st ts).active_tasks k = none := by
  unfold try_assign_next_task
  split
  · exact h
  · split
    · exact h
    · split
      · exact h
      · split
        · exact h
        · exact lookupA_insertA_none_of_some _ _ _ _ _ (by assumption) h

end Compute

open Compute Gateway

/-- C1: the spec says every mutating op other than owner-only unpausing
fails with Paused, but in the code only register_node, heartbeat and
submit_task call assert_not_paused.  In reachable paused state c1State,
submit_result (called by the assignee of task 0) succeeds and completes
the task, changing the state. -/
theorem C1_counterexample :
    c1State.paused = true ∧
    exceptOk (exec c1State ⟨"n", 1, 0⟩ (Call.submitResult 0 "p" "out")) = true ∧
    c1After ≠ c1State ∧
    (lookupA c1After.completed_tasks 0).map (fun (t : Task) => t.status) =
      some TaskStatus.Completed := by
  exact ⟨by rfl, by rfl, by decide, by rfl⟩

/-- C1 (amended): when the paused flag is set, exactly the three
pause-guarded operations register_node, heartbeat and submit_task fail
with Paused and leave the state unchanged; submit_result, timeout_task,
deactivate_node and ft_transfer are not pause-guarded. -/
theorem C1_pause_guard (st : DeAICompute) (e : Env) (ip gpu cpu ep desc : String)
    (cost : Nat) (pr : Option TaskPriority) (h : st.paused = true) :
    register_node st e ip gpu cpu ep = .error .Paused ∧
    heartbeat st e = .error .Paused ∧
    submit_task st e desc cost pr = .error .Paused ∧
    step st (e, .register ip gpu cpu ep) = st ∧
    step st (e, .heartbeat) = st ∧
    step st (e, .submitTask desc cost pr) = st := by
  refine ⟨?_, ?_, ?_, ?_, ?_, ?_⟩ <;>
    simp [register_node, heartbeat, submit_task, step, exec, h]

/-- C1 witness: the amended pause guard applied to the concrete paused
state c1State. -/
theorem C1_witness :
    register_node c1State ⟨"z", 0, 0⟩ "i2" "g" "c" "e2" = .error .Paused ∧
    heartbeat c1State ⟨"z", 0, 0⟩ = .error .Paused ∧
    submit_task c1State ⟨"z", 0, 0⟩ "d" 1 none = .error .Paused ∧
    step c1State (⟨"z", 0, 0⟩, .register "i2" "g" "c" "e2") = c1State ∧
    step c1State (⟨"z", 0, 0⟩, .heartbeat) = c1State ∧
    step c1State (⟨"z", 0, 0⟩, .submitTask "d" 1 none) = c1State :=
  C1_pause_guard c1State ⟨"z", 0, 0⟩ "i2" "g" "c" "e2" "d" 1 none (by rfl)

/-- C8: the claim says access tokens expire 1 hour after issuance, but
create_jwt_token passes 24 hours for any non-api_key token type: the
minted claims for token_type "access" carry exp − iat = 86400 seconds,
not 3600. -/
theorem C8_counterexample :
    (create_jwt_claims c8User "access" 1000).exp
        - (create_jwt_claims c8User "access" 1000).iat = 86400 ∧
    (86400 : Nat) ≠ 3600 := by
  exact ⟨by rfl, by norm_num⟩

/-- C8 (amended): every gateway JWT with token_type "access" expires
exactly 24 hours after issuance, and every token with token_type
"api_key" expires exactly 30 days after issuance. -/
theorem C8_expiry (user : User) (now : Nat) :
    (create_jwt_claims user "access" now).exp = now + 86400 ∧
    (create_jwt_claims user "access" now).iat = now ∧
    (create_jwt_claims user "api_key" now).exp = now + 2592000 ∧
    (create_jwt_claims user "api_key" now).iat = now := by
  refine ⟨?_, rfl, ?_, rfl⟩
  · show now + 3600 * (if ("access" : String) = "api_key" then 24 * 30 else 24) = now + 86400
    rw [if_neg (by decide)]
  · show now + 3600 * (if ("api_key" : String) = "api_key" then 24 * 30 else 24) = now + 2592000
    rw [if_pos rfl]

namespace Compute

set_option maxHeartbeats 1000000 in
theorem register_nodes_evol (st : DeAICompute) (e : Env) (ip gpu cpu ep : String)
    (st' : DeAICompute) (hx : register_node st e ip gpu cpu ep = .ok st')
    (a : String) (n : NodeInfo) (h : lookupA st'.nodes a = some n) :
    lookupA st.nodes a = some n ∨ (n.reputation_score = 100 ∧ n.slashed_amount = 0) := by
  unfold register_node at hx
  repeat' (split at hx; try exact Except.noConfusion hx)
  all_goals simp only [] at hx
  all_goals cases hx
  all_goals rcases lookupA_insertA_cases _ _ _ _ _ h with ⟨hak, rfl⟩ | ⟨hak, hold⟩
  all_goals first
    | exact Or.inr ⟨rfl, rfl⟩
    | exact Or.inl hold

theorem heartbeat_nodes_evol (st : DeAICompute) (e : Env) (st' : DeAICompute)
    (hx : heartbeat st e = .ok st') (a : String) (n : NodeInfo)
    (h : lookupA st'.nodes a = some n) :
    lookupA st.nodes a = some n
    ∨ (∃ n0, lookupA st.nodes a = some n0 ∧ n.stake = n0.stake ∧
        n.slashed_amount = n0.slashed_amount ∧ n.reputation_score = n0.reputation_score) := by
  unfold heartbeat at hx
  split at hx
  · exact Except.noConfusion hx
  cases hlook : lookupA st.nodes e.predecessor with
  | none => simp only [hlook] at hx; exact Except.noConfusion hx
  | some node =>
      simp only [hlook] at hx
      cases hx
      rcases lookupA_insertA_cases _ _ _ _ _ h with ⟨rfl, rfl⟩ | ⟨hak, hold⟩
      · exact Or.inr ⟨node, hlook, rfl, rfl, rfl⟩
      · exact Or.inl hold

theorem deactivate_nodes_evol (st : DeAICompute) (e : Env) (st' : DeAICompute)
    (hx : deactivate_node st e = .ok st') (a : String) (n : NodeInfo)
    (h : lookupA st'.nodes a = some n) :
    lookupA st.nodes a = some n
    ∨ (∃ n0, lookupA st.nodes a = some n0 ∧ n.stake = n0.stake ∧
        n.slashed_amount = n0.slashed_amount ∧ n.reputation_score = n0.reputation_score) := by
  unfold deactivate_node at hx
  split at hx
  · exact Except.noConfusion hx
  cases hlook : lookupA st.nodes e.predecessor with
  | none => simp only [hlook] at hx; exact Except.noConfusion hx
  | some node =>
      simp only [hlook] at hx
      split at hx
      · exact Except.noConfusion hx
      split at hx
      · exact Except.noConfusion hx
      cases hx
      rcases lookupA_insertA_cases _ _ _ _ _ h with ⟨rfl, rfl⟩ | ⟨hak, hold⟩
      · exact Or.inr ⟨node, hlook, rfl, rfl, rfl⟩
      · exact Or.inl hold

theorem submit_task_nodes_evol (st : DeAICompute) (e : Env) (d : String) (cost : Nat)
    (pr : Option TaskPriority) (st' : DeAICompute)
    (hx : submit_task st e d cost pr = .ok st') (a : String) (n : NodeInfo)
    (h : lookupA st'.nodes a = some n) : lookupA st.nodes a = some n := by
  unfold submit_task at hx
  repeat' (split at hx; try exact Except.noConfusion hx)
  all_goals simp only [] at hx
  all_goals cases hx
  all_goals rw [try_assign_nodes] at h
  all_goals exact h

theorem submit_result_nodes_evol (st : DeAICompute) (e : Env) (tid : Nat)
    (ph out : String) (st' : DeAICompute)
    (hx : submit_result st e tid ph out = .ok st') (a : String) (n : NodeInfo)
    (h : lookupA st'.nodes a = some n) :
    lookupA st.nodes a = some n
    ∨ (∃ n0, lookupA st.nodes a = some n0 ∧ n.stake = n0.stake ∧
        n.slashed_amount = n0.slashed_amount ∧
        n.reputation_score = min MAX_REPUTATION (n0.reputation_score + REPUTATION_GAIN)) := by
  unfold submit_result at hx
  split at hx
  · exact Except.noConfusion hx
  cases hlookT : lookupA st.active_tasks tid with
  | none => simp only [hlookT] at hx; exact Except.noConfusion hx
  | some task =>
      simp only [hlookT] at hx
      split at hx
      · exact Except.noConfusion hx
      split at hx
      · exact Except.noConfusion hx
      split at hx
      · exact Except.noConfusion hx
      split at hx
      · exact Except.noConfusion hx
      split at hx
      · exact Except.noConfusion hx
      split at hx
      · exact Except.noConfusion hx
      split at hx
      · exact Except.noConfusion hx
      cases hlookN : lookupA st.nodes e.predecessor with
      | none => simp only [hlookN] at hx; exact Except.noConfusion hx
      | some node =>
          simp only [hlookN] at hx
          cases hdep : FungibleToken.internal_deposit st.token e.predecessor
              task.reward_amount with
          | error err => simp only [hdep] at hx; exact Except.noConfusion hx
          | ok token2 =>
              simp only [hdep] at hx
              cases hx
              rw [try_assign_nodes] at h
              rcases lookupA_insertA_cases _ _ _ _ _ h with ⟨rfl, rfl⟩ | ⟨hak, hold⟩
              · exact Or.inr ⟨node, hlookN, rfl, rfl, rfl⟩
              · exact Or.inl hold

theorem timeout_nodes_evol (st : DeAICompute) (e : Env) (tid : Nat) (st' : DeAICompute)
    (hx : timeout_task st e tid = .ok st') (a : String) (n : NodeInfo)
    (h : lookupA st'.nodes a = some n) :
    lookupA st.nodes a = some n
    ∨ (∃ n0, lookupA st.nodes a = some n0 ∧ n.stake = n0.stake ∧
        n.slashed_amount = n0.slashed_amount + n0.stake / 10 ∧
        n.reputation_score = n0.reputation_score - REPUTATION_LOSS) := by
  unfold timeout_task at hx
  split at hx
  · exact Except.noConfusion hx
  cases hlookT : lookupA st.active_tasks tid with
  | none => simp only [hlookT] at hx; exact Except.noConfusion hx
  | some task =>
      simp only [hlookT] at hx
      split at hx
      · exact Except.noConfusion hx
      split at hx
      · exact Except.noConfusion hx
      cases hassign : task.assignee with
      | none =>
          simp only [hassign] at hx
          cases hx
          exact Or.inl h
      | some assignee =>
          simp only [hassign] at hx
          cases hlookN : lookupA st.nodes assignee with
          | none =>
              simp only [hlookN] at hx
              cases hx
              exact Or.inl h
          | some node =>
              simp only [hlookN] at hx
              cases hx
              rcases lookupA_insertA_cases _ _ _ _ _ h with ⟨rfl, rfl⟩ | ⟨hak, hold⟩
              · exact Or.inr ⟨node, hlookN, rfl, rfl, rfl⟩
              · exact Or.inl hold

theorem ft_transfer_nodes_const (st : DeAICompute) (e : Env) (r : String) (amt : Nat)
    (st' : DeAICompute) (hx : ft_transfer st e r amt = .ok st') :
    st'.nodes = st.nodes := by
  unfold ft_transfer at hx
  repeat' (split at hx; try exact Except.noConfusion hx)
  cases hx
  rfl

theorem admin_nodes_const (st : DeAICompute) (e : Env) (st' : DeAICompute)
    (nn dd mm : Nat)
    (hx : pause_contract st e = .ok st' ∨ unpause_contract st e = .ok st' ∨
      update_min_stake st e nn = .ok st' ∨ update_max_tasks_per_node st e mm = .ok st' ∨
      update_task_timeout st e dd = .ok st') :
    st'.nodes = st.nodes := by
  rcases hx with hx | hx | hx | hx | hx
  · unfold pause_contract at hx
    repeat' (split at hx; try exact Except.noConfusion hx)
    cases hx
    rfl
  · unfold unpause_contract at hx
    repeat' (split at hx; try exact Except.noConfusion hx)
    cases hx
    rfl
  · unfold update_min_stake at hx
    repeat' (split at hx; try exact Except.noConfusion hx)
    cases hx
    rfl
  · unfold update_max_tasks_per_node at hx
    repeat' (split at hx; try exact Except.noConfusion hx)
    cases hx
    rfl
  · unfold update_task_timeout at hx
    repeat' (split at hx; try exact Except.noConfusion hx)
    cases hx
    rfl

end Compute

namespace Compute

/-- How one step can change a node record: unchanged, freshly registered,
bookkeeping-only updates (heartbeat, deactivate), a reputation gain
(submit_result), or a slash (timeout_task only). -/
theorem step_nodes_evol (st : DeAICompute) (e : Env) (c : Call) (a : String) (n : NodeInfo)
    (h : lookupA (step st (e, c)).nodes a = some n) :
    lookupA st.nodes a = some n
    ∨ (n.reputation_score = 100 ∧ n.slashed_amount = 0)
    ∨ (∃ n0, lookupA st.nodes a = some n0 ∧ n.stake = n0.stake ∧
        n.slashed_amount = n0.slashed_amount ∧ n.reputation_score = n0.reputation_score)
    ∨ (∃ n0, lookupA st.nodes a = some n0 ∧ n.stake = n0.stake ∧
        n.slashed_amount = n0.slashed_amount ∧
        n.reputation_score = min MAX_REPUTATION (n0.reputation_score + REPUTATION_GAIN))
    ∨ ((∃ tid, c = Call.timeoutTask tid) ∧
        ∃ n0, lookupA st.nodes a = some n0 ∧ n.stake = n0.stake ∧
        n.slashed_amount = n0.slashed_amount + n0.stake / 10 ∧
        n.reputation_score = n0.reputation_score - REPUTATION_LOSS) := by
  cases hx : exec st e c with
  | error err =>
      simp only [step, hx] at h
      exact Or.inl h
  | ok st' =>
      simp only [step, hx] at h
      cases c with
      | register ip gpu cpu ep =>
          rcases register_nodes_evol st e ip gpu cpu ep st' hx a n h with h1 | h2
          · exact Or.inl h1
          · exact Or.inr (Or.inl h2)
      | heartbeat =>
          rcases heartbeat_nodes_evol st e st' hx a n h with h1 | h2
          · exact Or.inl h1
          · exact Or.inr (Or.inr (Or.inl h2))
      | deactivate =>
          rcases deactivate_nodes_evol st e st' hx a n h with h1 | h2
          · exact Or.inl h1
          · exact Or.inr (Or.inr (Or.inl h2))
      | submitTask d cost pr =>
          exact Or.inl (submit_task_nodes_evol st e d cost pr st' hx a n h)
      | submitResult tid ph out =>
          rcases submit_result_nodes_evol st e tid ph out st' hx a n h with h1 | h2
          · exact Or.inl h1
          · exact Or.inr (Or.inr (Or.inr (Or.inl h2)))
      | timeoutTask tid =>
          rcases timeout_nodes_evol st e tid st' hx a n h with h1 | h2
          · exact Or.inl h1
          · exact Or.inr (Or.inr (Or.inr (Or.inr ⟨⟨tid, rfl⟩, h2⟩)))
      | ftTransfer r amt =>
          rw [ft_transfer_nodes_const st e r amt st' hx] at h
          exact Or.inl h
      | pauseContract =>
          rw [admin_nodes_const st e st' 0 0 0 (Or.inl hx)] at h
          exact Or.inl h
      | unpauseContract =>
          rw [admin_nodes_const st e st' 0 0 0 (Or.inr (Or.inl hx))] at h
          exact Or.inl h
      | updateMinStake nn =>
          rw [admin_nodes_const st e st' nn 0 0 (Or.inr (Or.inr (Or.inl hx)))] at h
          exact Or.inl h
      | updateMaxTasksPerNode nn =>
          rw [admin_nodes_const st e st' 0 0 nn (Or.inr (Or.inr (Or.inr (Or.inl hx))))] at h
          exact Or.inl h
      | updateTaskTimeout dd =>
          rw [admin_nodes_const st e st' 0 dd 0
            (Or.inr (Or.inr (Or.inr (Or.inr hx))))] at h
          exact Or.inl h

end Compute

namespace Compute

theorem step_slash_bound (st : DeAICompute) (p : Env × Call) (k : Nat)
    (hst : ∀ a n, lookupA st.nodes a = some n →
      n.slashed_amount ≤ k * (n.stake / 10)) :
    ∀ a n, lookupA (step st p).nodes a = some n →
      n.slashed_amount ≤
        (k + (if (match p.2 with | Call.timeoutTask _ => true | _ => false) = true
              then 1 else 0)) * (n.stake / 10) := by
  intro a n h
  have hmono : ∀ m : Nat, k * m ≤
      (k + (if (match p.2 with | Call.timeoutTask _ => true | _ => false) = true
            then 1 else 0)) * m :=
    fun m => Nat.mul_le_mul (Nat.le_add_right _ _) (le_refl m)
  rcases step_nodes_evol st p.1 p.2 a n h with h1 | h2 | h3 | h4 | h5
  · exact le_trans (hst a n h1) (hmono _)
  · rw [h2.2]
    exact Nat.zero_le _
  · obtain ⟨n0, hl, hstake, hslash, _⟩ := h3
    rw [hslash, hstake]
    exact le_trans (hst a n0 hl) (hmono _)
  · obtain ⟨n0, hl, hstake, hslash, _⟩ := h4
    rw [hslash, hstake]
    exact le_trans (hst a n0 hl) (hmono _)
  · obtain ⟨⟨tid, hc⟩, n0, hl, hstake, hslash, _⟩ := h5
    rw [hslash, hstake, hc]
    simp only [if_pos rfl]
    calc n0.slashed_amount + n0.stake / 10
        ≤ k * (n0.stake / 10) + n0.stake / 10 :=
          Nat.add_le_add_right (hst a n0 hl) _
      _ = (k + 1) * (n0.stake / 10) := by ring

theorem run_slash_bound (ops : List (Env × Call)) :
    ∀ (st : DeAICompute) (k : Nat),
      (∀ a n, lookupA st.nodes a = some n → n.slashed_amount ≤ k * (n.stake / 10)) →
      ∀ a n, lookupA (run st ops).nodes a = some n →
        n.slashed_amount ≤ (k + countTimeouts ops) * (n.stake / 10) := by
  induction ops with
  | nil =>
      intro st k hst a n h
      simp only [run, List.foldl_nil] at h
      simpa [countTimeouts] using hst a n h
  | cons p rest ih =>
      intro st k hst a n h
      simp only [run, List.foldl_cons] at h
      have hstep := step_slash_bound st p k hst
      have := ih (step st p) _ hstep a n h
      have harith : k + (if (match p.2 with
            | Call.timeoutTask _ => true | _ => false) = true then 1 else 0)
          + countTimeouts rest = k + countTimeouts (p :: rest) := by
        simp only [countTimeouts, List.countP_cons]
        omega
      rw [harith] at this
      exact this

set_option maxRecDepth 10000 in
/-- C3: the claim (slashed_amount ≤ stake in every reachable state, even
after arbitrarily many timeouts) is false: eleven timeout_task calls
against node n, interleaved with reputation-restoring completions so the
node keeps receiving assignments, leave slashed_amount = 11 * stake / 10,
strictly above the stake. -/
theorem C3_counterexample :
    (lookupA (reachable "o" c3Trace).nodes "n").map
        (fun (nd : NodeInfo) => (nd.slashed_amount, nd.stake)) =
      some (1100000000000000000000000, 1000000000000000000000000) ∧
    1000000000000000000000000 < 1100000000000000000000000 :=
  ⟨by rfl, by norm_num⟩

/-- C3 (amended): slashed_amount grows by stake / 10 on each timeout and
is never otherwise increased, so in every state reachable by a trace with
at most ten timeout_task calls, every node satisfies
slashed_amount ≤ stake; beyond ten timeouts the bound can fail. -/
theorem C3_slash_bound (owner : String) (ops : List (Env × Call)) (aid : String)
    (nd : NodeInfo) (hto : countTimeouts ops ≤ 10)
    (h : lookupA (reachable owner ops).nodes aid = some nd) :
    nd.slashed_amount ≤ nd.stake := by
  have hinit : ∀ a n, lookupA (DeAICompute.new owner).nodes a = some n →
      n.slashed_amount ≤ 0 * (n.stake / 10) := by
    intro a n hl
    simp [DeAICompute.new, lookupA] at hl
  have := run_slash_bound ops (DeAICompute.new owner) 0 hinit aid nd h
  rw [Nat.zero_add] at this
  calc nd.slashed_amount ≤ countTimeouts ops * (nd.stake / 10) := this
    _ ≤ 10 * (nd.stake / 10) := Nat.mul_le_mul hto (le_refl _)
    _ = nd.stake / 10 * 10 := Nat.mul_comm _ _
    _ ≤ nd.stake := Nat.div_mul_le_self _ _

/-- C3 witness: the amended bound applied to the single-registration
trace. -/
theorem C3_witness : regNode.slashed_amount ≤ regNode.stake :=
  C3_slash_bound "o" regTrace "n" regNode (by decide) (by rfl)

theorem run_rep_bound (ops : List (Env × Call)) :
    ∀ (st : DeAICompute),
      (∀ a n, lookupA st.nodes a = some n → n.reputation_score ≤ 1000) →
      ∀ a n, lookupA (run st ops).nodes a = some n → n.reputation_score ≤ 1000 := by
  induction ops with
  | nil =>
      intro st hst a n h
      simp only [run, List.foldl_nil] at h
      exact hst a n h
  | cons p rest ih =>
      intro st hst a n h
      simp only [run, List.foldl_cons] at h
      refine ih (step st p) ?_ a n h
      intro a n hl
      rcases step_nodes_evol st p.1 p.2 a n hl with h1 | h2 | h3 | h4 | h5
      · exact hst a n h1
      · rw [h2.1]
        norm_num
      · obtain ⟨n0, hl0, _, _, hrep⟩ := h3
        rw [hrep]
        exact hst a n0 hl0
      · obtain ⟨n0, hl0, _, _, hrep⟩ := h4
        rw [hrep]
        exact Nat.min_le_left _ _
      · obtain ⟨_, n0, hl0, _, _, hrep⟩ := h5
        rw [hrep]
        exact le_trans (Nat.sub_le _ _) (hst a n0 hl0)

/-- C4: in every reachable state, every node's reputation_score lies in
[0, 1000] (the lower bound is inherent to the Nat embedding of u32;
registration starts at 100, submit_result adds 10 capped at 1000 by
min, and timeout_task subtracts 50 with saturating_sub). -/
theorem C4_reputation_bounds (owner : String) (ops : List (Env × Call)) (aid : String)
    (nd : NodeInfo) (h : lookupA (reachable owner ops).nodes aid = some nd) :
    nd.reputation_score ≤ 1000 := by
  refine run_rep_bound ops (DeAICompute.new owner) ?_ aid nd h
  intro a n hl
  simp [DeAICompute.new, lookupA] at hl

/-- C4 witness: the reputation bound applied to the single-registration
trace. -/
theorem C4_witness : regNode.reputation_score ≤ 1000 :=
  C4_reputation_bounds "o" regTrace "n" regNode (by rfl)

end Compute

namespace Compute

set_option maxHeartbeats 1600000 in
theorem register_token_inv (st : DeAICompute) (e : Env) (ip gpu cpu ep : String)
    (st' : DeAICompute) (hx : register_node st e ip gpu cpu ep = .ok st')
    (hinv : TokenInv st) : TokenInv st' := by
  unfold register_node at hx
  repeat' (split at hx; try exact Except.noConfusion hx)
  all_goals simp only [] at hx
  all_goals cases hx
  · exact hinv
  · have hnone : lookupA st.token.accounts e.predecessor = none :=
      Option.not_isSome_iff_eq_none.mp (by assumption)
    constructor
    · show sumBalances (insertA st.token.accounts e.predecessor 0) =
        st.token.total_supply
      rw [sumBalances_insertA_none _ _ _ hnone, Nat.add_zero]
      exact hinv.1
    · exact hinv.2

set_option maxHeartbeats 1600000 in
theorem submit_task_token_inv (st : DeAICompute) (e : Env) (d : String) (cost : Nat)
    (pr : Option TaskPriority) (st' : DeAICompute)
    (hx : submit_task st e d cost pr = .ok st') (hinv : TokenInv st) : TokenInv st' := by
  unfold submit_task at hx
  repeat' (split at hx; try exact Except.noConfusion hx)
  all_goals simp only [] at hx
  all_goals cases hx
  · constructor
    · rw [TokenInv] at hinv
      show sumBalances (try_assign_next_task _ e.timestamp).token.accounts =
        (try_assign_next_task _ e.timestamp).token.total_supply
      rw [try_assign_token]
      exact hinv.1
    · show (try_assign_next_task _ e.timestamp).token.total_supply =
        (try_assign_next_task _ e.timestamp).total_rewards_distributed
      rw [try_assign_token, try_assign_rewards]
      exact hinv.2
  · have hnone : lookupA st.token.accounts e.predecessor = none :=
      Option.not_isSome_iff_eq_none.mp (by assumption)
    constructor
    · show sumBalances (try_assign_next_task _ e.timestamp).token.accounts =
        (try_assign_next_task _ e.timestamp).token.total_supply
      rw [try_assign_token]
      show sumBalances (insertA st.token.accounts e.predecessor 0) =
        st.token.total_supply
      rw [sumBalances_insertA_none _ _ _ hnone, Nat.add_zero]
      exact hinv.1
    · show (try_assign_next_task _ e.timestamp).token.total_supply =
        (try_assign_next_task _ e.timestamp).total_rewards_distributed
      rw [try_assign_token, try_assign_rewards]
      exact hinv.2

end Compute

namespace Compute

set_option maxHeartbeats 1600000 in
theorem submit_result_token_inv (st : DeAICompute) (e : Env) (tid : Nat)
    (ph out : String) (st' : DeAICompute)
    (hx : submit_result st e tid ph out = .ok st') (hinv : TokenInv st) : TokenInv st' := by
  unfold submit_result at hx
  split at hx
  · exact Except.noConfusion hx
  cases hlookT : lookupA st.active_tasks tid with
  | none => simp only [hlookT] at hx; exact Except.noConfusion hx
  | some task =>
      simp only [hlookT] at hx
      split at hx
      · exact Except.noConfusion hx
      split at hx
      · exact Except.noConfusion hx
      split at hx
      · exact Except.noConfusion hx
      split at hx
      · exact Except.noConfusion hx
      split at hx
      · exact Except.noConfusion hx
      split at hx
      · exact Except.noConfusion hx
      split at hx
      · exact Except.noConfusion hx
      cases hlookN : lookupA st.nodes e.predecessor with
      | none => simp only [hlookN] at hx; exact Except.noConfusion hx
      | some node =>
          simp only [hlookN] at hx
          cases hdep : FungibleToken.internal_deposit st.token e.predecessor
              task.reward_amount with
          | error err => simp only [hdep] at hx; exact Except.noConfusion hx
          | ok token2 =>
              simp only [hdep] at hx
              cases hx
              unfold FungibleToken.internal_deposit at hdep
              cases hbal : lookupA st.token.accounts e.predecessor with
              | none => simp only [hbal] at hdep; exact Except.noConfusion hdep
              | some bal =>
                  simp only [hbal] at hdep
                  cases hdep
                  have hsum := sumBalances_insertA_some st.token.accounts
                    e.predecessor bal (bal + task.reward_amount) hbal
                  constructor
                  · show sumBalances (try_assign_next_task _ e.timestamp).token.accounts =
                      (try_assign_next_task _ e.timestamp).token.total_supply
                    rw [try_assign_token]
                    show sumBalances
                        (insertA st.token.accounts e.predecessor (bal + task.reward_amount)) =
                      st.token.total_supply + task.reward_amount
                    have h1 := hinv.1
                    omega
                  · show (try_assign_next_task _ e.timestamp).token.total_supply =
                      (try_assign_next_task _ e.timestamp).total_rewards_distributed
                    rw [try_assign_token, try_assign_rewards]
                    show st.token.total_supply + task.reward_amount =
                      st.total_rewards_distributed + task.reward_amount
                    rw [hinv.2]

set_option maxHeartbeats 1600000 in
theorem ft_transfer_token_inv (st : DeAICompute) (e : Env) (r : String) (amt : Nat)
    (st' : DeAICompute) (hx : ft_transfer st e r amt = .ok st')
    (hinv : TokenInv st) : TokenInv st' := by
  unfold ft_transfer at hx
  split at hx
  · exact Except.noConfusion hx
  cases hcore : FungibleToken.ft_transfer_core st.token e.predecessor r amt with
  | error err => simp only [hcore] at hx; exact Except.noConfusion hx
  | ok token2 =>
      simp only [hcore] at hx
      cases hx
      unfold FungibleToken.ft_transfer_core at hcore
      split at hcore
      · exact Except.noConfusion hcore
      split at hcore
      · exact Except.noConfusion hcore
      cases hs : lookupA st.token.accounts e.predecessor with
      | none => simp only [hs] at hcore; exact Except.noConfusion hcore
      | some sbal =>
          simp only [hs] at hcore
          split at hcore
          · exact Except.noConfusion hcore
          cases hr : lookupA (insertA st.token.accounts e.predecessor (sbal - amt)) r with
          | none => simp only [hr] at hcore; exact Except.noConfusion hcore
          | some rbal =>
              simp only [hr] at hcore
              cases hcore
              have e1 := sumBalances_insertA_some st.token.accounts e.predecessor
                sbal (sbal - amt) hs
              have e2 := sumBalances_insertA_some
                (insertA st.token.accounts e.predecessor (sbal - amt)) r rbal
                (rbal + amt) hr
              have hle : ¬ sbal < amt := by assumption
              constructor
              · show sumBalances
                    (insertA (insertA st.token.accounts e.predecessor (sbal - amt)) r
                      (rbal + amt)) = st.token.total_supply
                have h1 := hinv.1
                omega
              · exact hinv.2

end Compute

namespace Compute

theorem token_inv_of_const (st st' : DeAICompute) (h1 : st'.token = st.token)
    (h2 : st'.total_rewards_distributed = st.total_rewards_distributed)
    (hinv : TokenInv st) : TokenInv st' := by
  unfold TokenInv at hinv ⊢
  rw [h1, h2]
  exact hinv

theorem heartbeat_token_const (st : DeAICompute) (e : Env) (st' : DeAICompute)
    (hx : heartbeat st e = .ok st') :
    st'.token = st.token ∧ st'.total_rewards_distributed = st.total_rewards_distributed := by
  unfold heartbeat at hx
  repeat' (split at hx; try exact Except.noConfusion hx)
  cases hx
  exact ⟨rfl, rfl⟩

theorem deactivate_token_const (st : DeAICompute) (e : Env) (st' : DeAICompute)
    (hx : deactivate_node st e = .ok st') :
    st'.token = st.token ∧ st'.total_rewards_distributed = st.total_rewards_distributed := by
  unfold deactivate_node at hx
  repeat' (split at hx; try exact Except.noConfusion hx)
  cases hx
  exact ⟨rfl, rfl⟩

theorem timeout_token_const (st : DeAICompute) (e : Env) (tid : Nat) (st' : DeAICompute)
    (hx : timeout_task st e tid = .ok st') :
    st'.token = st.token ∧ st'.total_rewards_distributed = st.total_rewards_distributed := by
  unfold timeout_task at hx
  repeat' (split at hx; try exact Except.noConfusion hx)
  all_goals simp only [] at hx
  all_goals cases hx
  all_goals exact ⟨rfl, rfl⟩

theorem admin_token_const (st : DeAICompute) (e : Env) (st' : DeAICompute)
    (nn dd mm : Nat)
    (hx : pause_contract st e = .ok st' ∨ unpause_contract st e = .ok st' ∨
      update_min_stake st e nn = .ok st' ∨ update_max_tasks_per_node st e mm = .ok st' ∨
      update_task_timeout st e dd = .ok st') :
    st'.token = st.token ∧ st'.total_rewards_distributed = st.total_rewards_distributed := by
  rcases hx with hx | hx | hx | hx | hx
  all_goals
    first
      | (unfold pause_contract at hx
         repeat' (split at hx; try exact Except.noConfusion hx)
         cases hx
         exact ⟨rfl, rfl⟩)
      | (unfold unpause_contract at hx
         repeat' (split at hx; try exact Except.noConfusion hx)
         cases hx
         exact ⟨rfl, rfl⟩)
      | (unfold update_min_stake at hx
         repeat' (split at hx; try exact Except.noConfusion hx)
         cases hx
         exact ⟨rfl, rfl⟩)
      | (unfold update_max_tasks_per_node at hx
         repeat' (split at hx; try exact Except.noConfusion hx)
         cases hx
         exact ⟨rfl, rfl⟩)
      | (unfold update_task_timeout at hx
         repeat' (split at hx; try exact Except.noConfusion hx)
         cases hx
         exact ⟨rfl, rfl⟩)

theorem step_token_inv (st : DeAICompute) (p : Env × Call) (hinv : TokenInv st) :
    TokenInv (step st p) := by
  obtain ⟨e, c⟩ := p
  cases hx : exec st e c with
  | error err =>
      have hs : step st (e, c) = st := by simp [step, hx]
      rw [hs]
      exact hinv
  | ok st' =>
      have hs : step st (e, c) = st' := by simp [step, hx]
      rw [hs]
      cases c with
      | register ip gpu cpu ep =>
          exact register_token_inv st e ip gpu cpu ep st' hx hinv
      | heartbeat =>
          obtain ⟨h1, h2⟩ := heartbeat_token_const st e st' hx
          exact token_inv_of_const st st' h1 h2 hinv
      | deactivate =>
          obtain ⟨h1, h2⟩ := deactivate_token_const st e st' hx
          exact token_inv_of_const st st' h1 h2 hinv
      | submitTask d cost pr =>
          exact submit_task_token_inv st e d cost pr st' hx hinv
      | submitResult tid ph out =>
          exact submit_result_token_inv st e tid ph out st' hx hinv
      | timeoutTask tid =>
          obtain ⟨h1, h2⟩ := timeout_token_const st e tid st' hx
          exact token_inv_of_const st st' h1 h2 hinv
      | ftTransfer r amt =>
          exact ft_transfer_token_inv st e r amt st' hx hinv
      | pauseContract =>
          obtain ⟨h1, h2⟩ := admin_token_const st e st' 0 0 0 (Or.inl hx)
          exact token_inv_of_const st st' h1 h2 hinv
      | unpauseContract =>
          obtain ⟨h1, h2⟩ := admin_token_const st e st' 0 0 0 (Or.inr (Or.inl hx))
          exact token_inv_of_const st st' h1 h2 hinv
      | updateMinStake nn =>
          obtain ⟨h1, h2⟩ := admin_token_const st e st' nn 0 0
            (Or.inr (Or.inr (Or.inl hx)))
          exact token_inv_of_const st st' h1 h2 hinv
      | updateMaxTasksPerNode nn =>
          obtain ⟨h1, h2⟩ := admin_token_const st e st' 0 0 nn
            (Or.inr (Or.inr (Or.inr (Or.inl hx))))
          exact token_inv_of_const st st' h1 h2 hinv
      | updateTaskTimeout dd =>
          obtain ⟨h1, h2⟩ := admin_token_const st e st' 0 dd 0
            (Or.inr (Or.inr (Or.inr (Or.inr hx))))
          exact token_inv_of_const st st' h1 h2 hinv

theorem run_token_inv (ops : List (Env × Call)) :
    ∀ st : DeAICompute, TokenInv st → TokenInv (run st ops) := by
  induction ops with
  | nil =>
      intro st hinv
      simpa [run] using hinv
  | cons p rest ih =>
      intro st hinv
      simp only [run, List.foldl_cons]
      exact ih (step st p) (step_token_inv st p hinv)

/-- C2: token conservation in every reachable state: the total supply
equals the sum of all account balances and equals
total_rewards_distributed.  Tokens enter circulation only through
submit_result's internal_deposit of the task's reward_amount (which also
bumps total_rewards_distributed), and ft_transfer moves balances without
changing the supply. -/
theorem C2_token_conservation (owner : String) (ops : List (Env × Call)) :
    sumBalances (reachable owner ops).token.accounts =
      (reachable owner ops).token.total_supply ∧
    (reachable owner ops).token.total_supply =
      (reachable owner ops).total_rewards_distributed := by
  have hinit : TokenInv (DeAICompute.new owner) := by
    constructor
    · show sumBalances (insertA [] owner 0) = 0
      simp [insertA, sumBalances]
    · rfl
  exact run_token_inv ops (DeAICompute.new owner) hinit

end Compute

namespace Compute

theorem validAt_nil (st : DeAICompute) (k : Nat) (q : TaskPriority) :
    ¬ validAt st [] k q := by
  simp [validAt]

theorem validAt_cons_succ (st : DeAICompute) (x : Nat) (l : List Nat) (k : Nat)
    (q : TaskPriority) : validAt st (x :: l) (k + 1) q ↔ validAt st l k q := by
  simp [validAt, List.get?_cons_succ]

theorem validAt_cons_zero (st : DeAICompute) (x : Nat) (l : List Nat)
    (q : TaskPriority) :
    validAt st (x :: l) 0 q ↔
      ∃ task, lookupA st.active_tasks x = some task ∧
        task.status = TaskStatus.Pending ∧ task.priority = q := by
  constructor
  · rintro ⟨tid, task, hget, hl, hst, hpr⟩
    rw [List.get?_cons_zero] at hget
    obtain rfl : tid = x := Option.some_injective _ hget.symm ▸ rfl
    exact ⟨task, hl, hst, hpr⟩
  · rintro ⟨task, hl, hst, hpr⟩
    exact ⟨x, task, List.get?_cons_zero, hl, hst, hpr⟩

theorem find_best_scan_mono (st : DeAICompute) (rest : List Nat) :
    ∀ (i b0 : Nat) (p0 : TaskPriority) (b : Nat) (p : TaskPriority),
      find_best_scan st i rest (some (b0, p0)) = some (b, p) →
      priority_value p0 ≤ priority_value p ∧
        (b ≠ b0 → priority_value p0 < priority_value p) := by
  induction rest with
  | nil =>
      intro i b0 p0 b p h
      simp only [find_best_scan] at h
      obtain ⟨rfl, rfl⟩ : b0 = b ∧ p0 = p := by
        have := Option.some_injective _ h
        exact ⟨congrArg Prod.fst this, congrArg Prod.snd this⟩
      exact ⟨le_refl _, fun hne => absurd rfl hne⟩
  | cons tid rest ih =>
      intro i b0 p0 b p h
      simp only [find_best_scan] at h
      cases hl : lookupA st.active_tasks tid with
      | none =>
          simp only [hl] at h
          exact ih (i + 1) b0 p0 b p h
      | some task =>
          simp only [hl] at h
          by_cases hst : task.status = TaskStatus.Pending
          · rw [if_pos hst] at h
            by_cases hgt : priority_value task.priority > priority_value p0
            · rw [if_pos hgt] at h
              have hrec := ih (i + 1) i task.priority b p h
              exact ⟨le_trans (le_of_lt hgt) hrec.1,
                fun _ => lt_of_lt_of_le hgt hrec.1⟩
            · rw [if_neg hgt] at h
              exact ih (i + 1) b0 p0 b p h
          · rw [if_neg hst] at h
            exact ih (i + 1) b0 p0 b p h

theorem find_best_scan_origin (st : DeAICompute) (rest : List Nat) :
    ∀ (i : Nat) (acc : Option (Nat × TaskPriority)) (b : Nat) (p : TaskPriority),
      find_best_scan st i rest acc = some (b, p) →
      acc = some (b, p) ∨ ∃ k, b = i + k ∧ validAt st rest k p := by
  induction rest with
  | nil =>
      intro i acc b p h
      simp only [find_best_scan] at h
      exact Or.inl h
  | cons tid rest ih =>
      intro i acc b p h
      simp only [find_best_scan] at h
      have shift : ∀ next, find_best_scan st (i + 1) rest next = some (b, p) →
          next = some (b, p) ∨ ∃ k, b = i + k + 1 ∧ validAt st rest k p := by
        intro next hn
        rcases ih (i + 1) next b p hn with h1 | ⟨k, hbk, hv⟩
        · exact Or.inl h1
        · exact Or.inr ⟨k, by omega, hv⟩
      cases hl : lookupA st.active_tasks tid with
      | none =>
          simp only [hl] at h
          rcases shift _ h with h1 | ⟨k, hbk, hv⟩
          · exact Or.inl h1
          · exact Or.inr ⟨k + 1, by omega, (validAt_cons_succ st tid rest k p).mpr hv⟩
      | some task =>
          simp only [hl] at h
          by_cases hst : task.status = TaskStatus.Pending
          · rw [if_pos hst] at h
            cases acc with
            | none =>
                rcases shift _ h with h1 | ⟨k, hbk, hv⟩
                · have heq : (i, task.priority) = (b, p) := Option.some_injective _ h1
                  have hb : i = b := congrArg Prod.fst heq
                  have hp : task.priority = p := congrArg Prod.snd heq
                  exact Or.inr ⟨0, by omega,
                    (validAt_cons_zero st tid rest p).mpr ⟨task, hl, hst, hp⟩⟩
                · exact Or.inr ⟨k + 1, by omega,
                    (validAt_cons_succ st tid rest k p).mpr hv⟩
            | some a0 =>
                simp only [] at h
                by_cases hgt : priority_value task.priority > priority_value a0.2
                · rw [if_pos hgt] at h
                  rcases shift _ h with h1 | ⟨k, hbk, hv⟩
                  · have heq : (i, task.priority) = (b, p) := Option.some_injective _ h1
                    have hb : i = b := congrArg Prod.fst heq
                    have hp : task.priority = p := congrArg Prod.snd heq
                    exact Or.inr ⟨0, by omega,
                      (validAt_cons_zero st tid rest p).mpr ⟨task, hl, hst, hp⟩⟩
                  · exact Or.inr ⟨k + 1, by omega,
                      (validAt_cons_succ st tid rest k p).mpr hv⟩
                · rw [if_neg hgt] at h
                  rcases shift _ h with h1 | ⟨k, hbk, hv⟩
                  · exact Or.inl h1
                  · exact Or.inr ⟨k + 1, by omega,
                      (validAt_cons_succ st tid rest k p).mpr hv⟩
          · rw [if_neg hst] at h
            rcases shift _ h with h1 | ⟨k, hbk, hv⟩
            · exact Or.inl h1
            · exact Or.inr ⟨k + 1, by omega,
                (validAt_cons_succ st tid rest k p).mpr hv⟩

end Compute

namespace Compute

theorem find_best_scan_some (st : DeAICompute) (rest : List Nat) :
    ∀ (i b0 : Nat) (p0 : TaskPriority),
      ∃ b p, find_best_scan st i rest (some (b0, p0)) = some (b, p) := by
  induction rest with
  | nil =>
      intro i b0 p0
      exact ⟨b0, p0, rfl⟩
  | cons tid rest ih =>
      intro i b0 p0
      simp only [find_best_scan]
      cases hl : lookupA st.active_tasks tid with
      | none =>
          simp only []
          exact ih (i + 1) b0 p0
      | some task =>
          simp only []
          by_cases hst : task.status = TaskStatus.Pending
          · rw [if_pos hst]
            by_cases hgt : priority_value task.priority > priority_value p0
            · rw [if_pos hgt]
              exact ih (i + 1) i task.priority
            · rw [if_neg hgt]
              exact ih (i + 1) b0 p0
          · rw [if_neg hst]
            exact ih (i + 1) b0 p0

theorem find_best_scan_bound (st : DeAICompute) (rest : List Nat) :
    ∀ (i : Nat) (acc : Option (Nat × TaskPriority)) (b : Nat) (p : TaskPriority),
      find_best_scan st i rest acc = some (b, p) →
      ∀ k q, validAt st rest k q → priority_value q ≤ priority_value p := by
  induction rest with
  | nil =>
      intro i acc b p h k q hv
      exact absurd hv (validAt_nil st k q)
  | cons tid rest ih =>
      intro i acc b p h k q hv
      simp only [find_best_scan] at h
      cases k with
      | succ k0 =>
          cases hl : lookupA st.active_tasks tid with
          | none =>
              simp only [hl] at h
              exact ih (i + 1) acc b p h k0 q ((validAt_cons_succ st tid rest k0 q).mp hv)
          | some task =>
              simp only [hl] at h
              exact ih (i + 1) _ b p h k0 q ((validAt_cons_succ st tid rest k0 q).mp hv)
      | zero =>
          obtain ⟨task0, hl0, hst0, hpr0⟩ := (validAt_cons_zero st tid rest q).mp hv
          simp only [hl0, if_pos hst0] at h
          cases acc with
          | none =>
              simp only [] at h
              have := find_best_scan_mono st rest (i + 1) i task0.priority b p h
              rw [hpr0] at this
              exact this.1
          | some a0 =>
              simp only [] at h
              by_cases hgt : priority_value task0.priority > priority_value a0.2
              · rw [if_pos hgt] at h
                have := find_best_scan_mono st rest (i + 1) i task0.priority b p h
                rw [hpr0] at this
                exact this.1
              · rw [if_neg hgt] at h
                have hmono := find_best_scan_mono st rest (i + 1) a0.1 a0.2 b p ?hh
                · rw [← hpr0]
                  omega
                case hh =>
                  have ha0 : (some a0 : Option (Nat × TaskPriority)) = some (a0.1, a0.2) := by
                    rfl
                  rw [← ha0]
                  exact h

theorem find_best_scan_first (st : DeAICompute) (rest : List Nat) :
    ∀ (i : Nat) (acc : Option (Nat × TaskPriority)) (b : Nat) (p : TaskPriority),
      (∀ b0 p0, acc = some (b0, p0) → b0 < i) →
      find_best_scan st i rest acc = some (b, p) →
      ∀ k q, validAt st rest k q → i + k < b → priority_value q < priority_value p := by
  induction rest with
  | nil =>
      intro i acc b p hacc h k q hv hlt
      exact absurd hv (validAt_nil st k q)
  | cons tid rest ih =>
      intro i acc b p hacc h k q hv hlt
      simp only [find_best_scan] at h
      cases k with
      | succ k0 =>
          cases hl : lookupA st.active_tasks tid with
          | none =>
              simp only [hl] at h
              exact ih (i + 1) acc b p (fun b0 p0 hc => by have := hacc b0 p0 hc; omega)
                h k0 q ((validAt_cons_succ st tid rest k0 q).mp hv) (by omega)
          | some task =>
              simp only [hl] at h
              by_cases hst : task.status = TaskStatus.Pending
              · rw [if_pos hst] at h
                cases acc with
                | none =>
                    simp only [] at h
                    exact ih (i + 1) (some (i, task.priority)) b p
                      (fun b0 p0 hc => by
                        have heq : (i, task.priority) = (b0, p0) :=
                          Option.some_injective _ hc
                        have : i = b0 := congrArg Prod.fst heq
                        omega)
                      h k0 q ((validAt_cons_succ st tid rest k0 q).mp hv) (by omega)
                | some a0 =>
                    simp only [] at h
                    by_cases hgt : priority_value task.priority > priority_value a0.2
                    · rw [if_pos hgt] at h
                      exact ih (i + 1) (some (i, task.priority)) b p
                        (fun b0 p0 hc => by
                          have heq : (i, task.priority) = (b0, p0) :=
                            Option.some_injective _ hc
                          have : i = b0 := congrArg Prod.fst heq
                          omega)
                        h k0 q ((validAt_cons_succ st tid rest k0 q).mp hv) (by omega)
                    · rw [if_neg hgt] at h
                      exact ih (i + 1) (some a0) b p
                        (fun b0 p0 hc => by
                          have h1 := hacc b0 p0 hc
                          omega)
                        h k0 q ((validAt_cons_succ st tid rest k0 q).mp hv) (by omega)
              · rw [if_neg hst] at h
                exact ih (i + 1) acc b p (fun b0 p0 hc => by have := hacc b0 p0 hc; omega)
                  h k0 q ((validAt_cons_succ st tid rest k0 q).mp hv) (by omega)
      | zero =>
          obtain ⟨task0, hl0, hst0, hpr0⟩ := (validAt_cons_zero st tid rest q).mp hv
          simp only [hl0, if_pos hst0] at h
          cases acc with
          | none =>
              simp only [] at h
              have := find_best_scan_mono st rest (i + 1) i task0.priority b p h
              rw [hpr0] at this
              exact this.2 (by omega)
          | some a0 =>
              simp only [] at h
              by_cases hgt : priority_value task0.priority > priority_value a0.2
              · rw [if_pos hgt] at h
                have := find_best_scan_mono st rest (i + 1) i task0.priority b p h
                rw [hpr0] at this
                exact this.2 (by omega)
              · rw [if_neg hgt] at h
                have ha0 : (some a0 : Option (Nat × TaskPriority)) = some (a0.1, a0.2) := rfl
                rw [ha0] at h
                have hmono := find_best_scan_mono st rest (i + 1) a0.1 a0.2 b p h
                have hlt0 := hacc a0.1 a0.2 rfl
                have hstrict := hmono.2 (by omega)
                rw [← hpr0]
                omega

end Compute

namespace Compute

set_option maxRecDepth 10000 in
/-- C5: the tie-break claim (first-inserted, lowest task ID) is false in
reachable states: in c5Before the pending vector is [7, 6] (reordered by
an earlier swap_remove), tasks 6 and 7 are both Pending with priority
Normal, and the dispatch triggered by completing task 1 assigns task 7,
leaving the lower-id task 6 pending. -/
theorem C5_counterexample :
    c5Before.pending_tasks = [7, 6] ∧
    (lookupA c5Before.active_tasks 6).map (fun (t : Task) => (t.status, t.priority)) =
      some (TaskStatus.Pending, TaskPriority.Normal) ∧
    (lookupA c5Before.active_tasks 7).map (fun (t : Task) => (t.status, t.priority)) =
      some (TaskStatus.Pending, TaskPriority.Normal) ∧
    (lookupA c5After.active_tasks 7).map (fun (t : Task) => (t.status, t.assignee)) =
      some (TaskStatus.Assigned, some "n") ∧
    (lookupA c5After.active_tasks 6).map (fun (t : Task) => t.status) =
      some TaskStatus.Pending :=
  ⟨by rfl, by rfl, by rfl, by rfl, by rfl⟩

/-- C5 (amended): the dispatcher picks a Pending task of maximal priority
value, and among equal-highest-priority pending tasks the one at the
lowest index in the pending vector; that index order is insertion order
only until swap_remove reorders the vector, so the winner is not always
the lowest task ID.  When a node is available the selected entry is
exactly the task try_assign_next_task assigns. -/
theorem C5_dispatch_spec (st : DeAICompute) (b : Nat) (p : TaskPriority)
    (h : find_best_pending st = some (b, p)) :
    (∃ tid task, st.pending_tasks.get? b = some tid ∧
        lookupA st.active_tasks tid = some task ∧
        task.status = TaskStatus.Pending ∧ task.priority = p) ∧
    (∀ k q, validAt st st.pending_tasks k q → priority_value q ≤ priority_value p) ∧
    (∀ k q, validAt st st.pending_tasks k q → k < b →
        priority_value q < priority_value p) ∧
    (∀ ts node, get_available_node st ts = some node →
        ∃ tid task, st.pending_tasks.get? b = some tid ∧
          lookupA st.active_tasks tid = some task ∧
          try_assign_next_task st ts =
            { st with
              pending_tasks := swapRemove st.pending_tasks b,
              active_tasks := insertA st.active_tasks tid
                { task with
                  assignee := some node,
                  status := TaskStatus.Assigned,
                  assigned_at := some ts,
                  timeout_at := some (ts + st.task_timeout_duration) } }) := by
  have hscan : find_best_scan st 0 st.pending_tasks none = some (b, p) := h
  have horigin := find_best_scan_origin st st.pending_tasks 0 none b p hscan
  rcases horigin with habs | ⟨k, hbk, hval⟩
  · exact Option.noConfusion habs
  obtain ⟨tid, task, hget, hl, hst, hpr⟩ := hval
  have hk : k = b := by omega
  rw [hk] at hget
  refine ⟨⟨tid, task, hget, hl, hst, hpr⟩, ?_, ?_, ?_⟩
  · intro k2 q2 hv
    exact find_best_scan_bound st st.pending_tasks 0 none b p hscan k2 q2 hv
  · intro k2 q2 hv hlt
    exact find_best_scan_first st st.pending_tasks 0 none b p
      (fun b0 p0 hc => Option.noConfusion hc) hscan k2 q2 hv (by omega)
  · intro ts node havail
    refine ⟨tid, task, hget, hl, ?_⟩
    unfold try_assign_next_task
    simp only [havail, h, hget, hl]

end Compute

namespace Compute

set_option maxRecDepth 10000 in
/-- C5 witness: the dispatch specification applied to the concrete state
c5Before, whose scan selects index 0 with priority Normal. -/
theorem C5_witness :
    ∃ tid task, c5Before.pending_tasks.get? 0 = some tid ∧
      lookupA c5Before.active_tasks tid = some task ∧
      task.status = TaskStatus.Pending ∧ task.priority = TaskPriority.Normal :=
  (C5_dispatch_spec c5Before 0 TaskPriority.Normal (by rfl)).1

end Compute

namespace Compute

set_option maxHeartbeats 1000000 in
/-- C6: a successful submit_result by the task's assignee on an active
task before its deadline completes the task (recording output, proof hash
and completion time, and moving it from the active table to the completed
archive), increments the node's completion counter, raises its reputation
by 10 capped at 1000, mints reward_amount to the caller, and increases
total supply and total_rewards_distributed by reward_amount. -/
theorem C6_submit_result_effects (st : DeAICompute) (e : Env) (tid : Nat)
    (ph out : String) (task : Task) (node : NodeInfo) (bal tmo : Nat)
    (hdep : e.deposit = 1)
    (htask : lookupA st.active_tasks tid = some task)
    (hassignee : task.assignee = some e.predecessor)
    (hstatus : task.status = TaskStatus.Assigned ∨ task.status = TaskStatus.InProgress)
    (hph : ph ≠ "") (hout : out ≠ "")
    (hphlen : ph.length ≤ 64) (houtlen : out.length ≤ 10000)
    (htmo : task.timeout_at = some tmo) (hts : e.timestamp ≤ tmo)
    (hnode : lookupA st.nodes e.predecessor = some node)
    (hbal : lookupA st.token.accounts e.predecessor = some bal)
    (hnd : (st.active_tasks.map Prod.fst).Nodup) :
    ∃ st', submit_result st e tid ph out = .ok st' ∧
      lookupA st'.completed_tasks tid = some { task with
        status := TaskStatus.Completed,
        output := some out,
        proof_hash := some ph,
        completed_at := some e.timestamp } ∧
      lookupA st'.active_tasks tid = none ∧
      lookupA st'.nodes e.predecessor = some { node with
        total_tasks_completed := node.total_tasks_completed + 1,
        reputation_score := min 1000 (node.reputation_score + 10) } ∧
      lookupA st'.token.accounts e.predecessor = some (bal + task.reward_amount) ∧
      st'.token.total_supply = st.token.total_supply + task.reward_amount ∧
      st'.total_rewards_distributed =
        st.total_rewards_distributed + task.reward_amount := by
  have hsa : statusActive task.status = true := by
    rcases hstatus with h | h <;> simp [statusActive, h]
  have h1 : ¬ e.deposit ≠ ONE_YOCTO := fun hne => hne (by rw [hdep]; rfl)
  have h2 : ¬ task.assignee ≠ some e.predecessor := fun hne => hne hassignee
  have h3 : ¬ (!statusActive task.status) = true := by simp [hsa]
  have h6 : ¬ ph.length > 64 := by omega
  have h7 : ¬ out.length > 10000 := by omega
  have h8 : ¬ (match task.timeout_at with
      | some t => decide (t < e.timestamp)
      | none => false) = true := by
    rw [htmo]
    simp only [decide_eq_true_eq]
    omega
  unfold submit_result
  rw [if_neg h1]
  simp only [htask]
  rw [if_neg h2, if_neg h3, if_neg hph, if_neg hout, if_neg h6, if_neg h7, if_neg h8]
  simp only [hnode]
  unfold FungibleToken.internal_deposit
  simp only [hbal]
  refine ⟨_, rfl, ?_, ?_, ?_, ?_, ?_, ?_⟩
  · rw [try_assign_completed]
    exact lookupA_insertA_self _ _ _
  · refine try_assign_active_none _ _ _ ?_
    exact lookupA_eraseA_self _ _ hnd
  · rw [try_assign_nodes]
    exact lookupA_insertA_self _ _ _
  · rw [try_assign_token]
    exact lookupA_insertA_self _ _ _
  · rw [try_assign_token]
  · rw [try_assign_rewards]

end Compute

namespace Compute

set_option maxRecDepth 10000 in
/-- C6 witness: the submit_result effects applied to the concrete
assigned state, completing task 0. -/
theorem C6_witness :
    ∃ st', submit_result assignState ⟨"n", 1, 0⟩ 0 "p" "o" = .ok st' ∧
      lookupA st'.completed_tasks 0 = some { assignTask with
        status := TaskStatus.Completed,
        output := some "o",
        proof_hash := some "p",
        completed_at := some 0 } ∧
      lookupA st'.active_tasks 0 = none ∧
      lookupA st'.nodes "n" = some { regNode with
        total_tasks_completed := regNode.total_tasks_completed + 1,
        reputation_score := min 1000 (regNode.reputation_score + 10) } ∧
      lookupA st'.token.accounts "n" = some (0 + assignTask.reward_amount) ∧
      st'.token.total_supply = assignState.token.total_supply + assignTask.reward_amount ∧
      st'.total_rewards_distributed =
        assignState.total_rewards_distributed + assignTask.reward_amount :=
  C6_submit_result_effects assignState ⟨"n", 1, 0⟩ 0 "p" "o" assignTask regNode 0
    MAX_TASK_TIMEOUT rfl (by rfl) rfl (Or.inl rfl) (by decide) (by decide)
    (by decide) (by decide) rfl (Nat.zero_le _) (by rfl) (by rfl) (by decide)

/-- C7: timeout_task on an active task with deadline tmo fails with no
state change whenever called at or before tmo, and succeeds when called
at tmo + 1 nanosecond. -/
theorem C7_timeout_boundary (st : DeAICompute) (tid tmo : Nat) (task : Task)
    (caller : String)
    (htask : lookupA st.active_tasks tid = some task)
    (hstatus : task.status = TaskStatus.Assigned ∨ task.status = TaskStatus.InProgress)
    (htmo : task.timeout_at = some tmo) :
    (∀ ts, ts ≤ tmo →
      timeout_task st ⟨caller, 1, ts⟩ tid = .error CErr.NotTimedOutYet ∧
      step st (⟨caller, 1, ts⟩, Call.timeoutTask tid) = st) ∧
    (∀ ts, tmo < ts → exceptOk (timeout_task st ⟨caller, 1, ts⟩ tid) = true) := by
  have hsa : statusActive task.status = true := by
    rcases hstatus with h | h <;> simp [statusActive, h]
  have h3 : ¬ (!statusActive task.status) = true := by simp [hsa]
  constructor
  · intro ts hle
    have herr : timeout_task st ⟨caller, 1, ts⟩ tid = .error CErr.NotTimedOutYet := by
      unfold timeout_task
      rw [if_neg (fun hne => hne rfl)]
      simp only [htask]
      rw [if_neg h3]
      rw [if_pos (by rw [htmo]; simpa using hle)]
    refine ⟨herr, ?_⟩
    simp only [step, exec, herr]
  · intro ts hlt
    unfold timeout_task
    rw [if_neg (fun hne => hne rfl)]
    simp only [htask]
    rw [if_neg h3]
    rw [if_neg (by rw [htmo]; simp; omega)]
    rfl

set_option maxRecDepth 10000 in
/-- C7 witness: the boundary behaviour on the concrete assigned state:
a call at the deadline fails, a call one nanosecond later succeeds. -/
theorem C7_witness :
    timeout_task assignState ⟨"x", 1, MAX_TASK_TIMEOUT⟩ 0 =
      .error CErr.NotTimedOutYet ∧
    exceptOk (timeout_task assignState ⟨"x", 1, MAX_TASK_TIMEOUT + 1⟩ 0) = true :=
  ⟨((C7_timeout_boundary assignState 0 MAX_TASK_TIMEOUT assignTask "x" (by rfl)
      (Or.inl rfl) rfl).1 MAX_TASK_TIMEOUT (le_refl _)).1,
   (C7_timeout_boundary assignState 0 MAX_TASK_TIMEOUT assignTask "x" (by rfl)
      (Or.inl rfl) rfl).2 (MAX_TASK_TIMEOUT + 1) (Nat.lt_succ_self _)⟩

/-- C10: after deactivate_node has refunded the stake and set is_active
to false, one heartbeat call from the node (not paused) sets is_active
back to true and refreshes last_heartbeat, changing nothing else about
the record - in particular the stake field is unchanged and no deposit is
required - and the node is again returned by get_available_node when it
is the only node, has positive reputation and spare capacity. -/
theorem C10_heartbeat_reactivates (st : DeAICompute) (a : String) (nd : NodeInfo)
    (d ts : Nat)
    (hp : st.paused = false)
    (hn : lookupA st.nodes a = some nd) :
    heartbeat st ⟨a, d, ts⟩ =
      .ok ({ st with nodes := insertA st.nodes a ({ nd with last_heartbeat := ts, is_active := true }) }) ∧
    lookupA (insertA st.nodes a ({ nd with last_heartbeat := ts, is_active := true })) a =
      some { nd with last_heartbeat := ts, is_active := true } ∧
    ({ nd with last_heartbeat := ts, is_active := true } : NodeInfo).stake = nd.stake ∧
    (st.nodes = [(a, nd)] → 0 < nd.reputation_score →
      get_node_active_task_count st a < st.max_tasks_per_node →
      get_available_node ({ st with nodes := insertA st.nodes a ({ nd with last_heartbeat := ts, is_active := true }) }) ts = some a) := by
  refine ⟨?_, lookupA_insertA_self _ _ _, rfl, ?_⟩
  · unfold heartbeat
    rw [if_neg (by rw [hp]; exact Bool.false_ne_true)]
    simp only [hn]
  · intro hsingle hrep hcount
    unfold get_available_node
    rw [hsingle]
    have hins : insertA [(a, nd)] a ({ nd with last_heartbeat := ts, is_active := true }) =
        [(a, ({ nd with last_heartbeat := ts, is_active := true } : NodeInfo))] := by
      simp [insertA]
    rw [hins, List.foldl_cons, List.foldl_nil]
    split
    · rfl
    · rename_i hc
      exfalso
      apply hc
      simp only [Bool.and_eq_true, decide_eq_true_eq]
      exact ⟨⟨⟨trivial, by rw [Nat.sub_self]; decide⟩, hrep⟩, hcount⟩

set_option maxRecDepth 10000 in
/-- C10 witness: reactivating the concrete deactivated node by one
heartbeat at t = 1. -/
theorem C10_witness :
    heartbeat deacState ⟨"n", 0, 1⟩ =
      .ok ({ deacState with nodes := insertA deacState.nodes "n" ({ deacNode with last_heartbeat := 1, is_active := true }) }) ∧
    (deacState.nodes = [("n", deacNode)] → 0 < deacNode.reputation_score →
      get_node_active_task_count deacState "n" < deacState.max_tasks_per_node →
      get_available_node ({ deacState with nodes := insertA deacState.nodes "n" ({ deacNode with last_heartbeat := 1, is_active := true }) }) 1 = some "n") :=
  ⟨(C10_heartbeat_reactivates deacState "n" deacNode 0 1 (by rfl) (by rfl)).1,
   (C10_heartbeat_reactivates deacState "n" deacNode 0 1 (by rfl) (by rfl)).2.2.2⟩

end Compute

namespace Gateway

theorem check_memory_fst (S : List Nat) (now : Nat) (cfg : RateLimitConfig) :
    (check_memory_rate_limit S now cfg).1 =
      S.filter (fun t => decide (now - t < 3600)) ++ [now] := by
  unfold check_memory_rate_limit
  simp only []
  repeat' split
  all_goals rfl

theorem mem_monotone_aux (S : List Nat) (a b : Nat) (cfg : RateLimitConfig)
    (hab : a ≤ b) (hbucket : a / 60 = b / 60)
    (hpast : ∀ t ∈ S, t ≤ a)
    (hkeep60 : ∀ t ∈ S, a - t < 60 → b - t < 60)
    (hkeep3600 : ∀ t ∈ S, a - t < 3600 → b - t < 3600) :
    (check_memory_rate_limit (check_memory_rate_limit S a cfg).1 b cfg).2.remaining ≤
      (check_memory_rate_limit S a cfg).2.remaining := by
  have hba : b - a < 60 := by omega
  rw [check_memory_fst S a cfg]
  have hfilt3600 : (S.filter (fun t => decide (a - t < 3600)) ++ [a]).filter
      (fun t => decide (b - t < 3600)) =
      S.filter (fun t => decide (a - t < 3600)) ++ [a] := by
    rw [List.filter_eq_self]
    intro t ht
    simp only [decide_eq_true_eq]
    rcases List.mem_append.mp ht with hts | hta
    · obtain ⟨htS, hcond⟩ := List.mem_filter.mp hts
      exact hkeep3600 t htS (by simpa using hcond)
    · have hta2 : t = a := by simpa using hta
      subst hta2
      omega
  have hfilt60 : (S.filter (fun t => decide (a - t < 3600)) ++ [a]).filter
      (fun t => decide (b - t < 60)) =
      (S.filter (fun t => decide (a - t < 3600)) ++ [a]).filter
      (fun t => decide (a - t < 60)) := by
    apply List.filter_congr
    intro t ht
    rw [decide_eq_decide]
    rcases List.mem_append.mp ht with hts | hta
    · obtain ⟨htS, _⟩ := List.mem_filter.mp hts
      have hta2 : t ≤ a := hpast t htS
      exact ⟨fun h => by omega, fun h => hkeep60 t htS h⟩
    · have hta2 : t = a := by simpa using hta
      subst hta2
      exact ⟨fun _ => by omega, fun _ => by omega⟩
  unfold check_memory_rate_limit
  simp only []
  rw [hfilt3600]
  rw [List.filter_append, hfilt60, List.filter_append]
  have hbb : ([b].filter (fun t => decide (b - t < 60))) = [b] := by
    simp
  have haa : ([a].filter (fun t => decide (a - t < 60))) = [a] := by
    simp
  rw [hbb, haa]
  simp only [List.length_append, List.length_cons, List.length_nil]
  repeat' split
  all_goals simp only []
  all_goals omega

end Gateway

namespace Gateway

theorem incr_two_fst (m : List (Nat × Nat)) (k : Nat) :
    (incr (incr m k).2 k).1 = (incr m k).1 + 1 := by
  cases h : lookupA m k with
  | none =>
      unfold incr
      simp only [h, lookupA_insertA_self]
  | some c =>
      unfold incr
      simp only [h, lookupA_insertA_self]

theorem redis_minute_blocked (st : RedisState) (now : Nat) (cfg : RateLimitConfig)
    (h : (incr st.minuteC (now / 60)).1 > cfg.requests_per_minute) :
    check_redis_rate_limit st now cfg =
      ({ st with minuteC := (incr st.minuteC (now / 60)).2 },
       ⟨cfg.requests_per_minute, 0, (now / 60 + 1) * 60, some (60 - now % 60)⟩) := by
  unfold check_redis_rate_limit
  simp only []
  rw [if_pos h]

theorem redis_hour_blocked (st : RedisState) (now : Nat) (cfg : RateLimitConfig)
    (hm : ¬ (incr st.minuteC (now / 60)).1 > cfg.requests_per_minute)
    (hh : (incr st.hourC (now / 3600)).1 > cfg.requests_per_hour) :
    check_redis_rate_limit st now cfg =
      ({ st with minuteC := (incr st.minuteC (now / 60)).2,
                 hourC := (incr st.hourC (now / 3600)).2 },
       ⟨cfg.requests_per_hour, 0, (now / 3600 + 1) * 3600, some (3600 - now % 3600)⟩) := by
  unfold check_redis_rate_limit
  simp only []
  rw [if_neg hm, if_pos hh]

theorem redis_day_blocked (st : RedisState) (now : Nat) (cfg : RateLimitConfig)
    (hm : ¬ (incr st.minuteC (now / 60)).1 > cfg.requests_per_minute)
    (hh : ¬ (incr st.hourC (now / 3600)).1 > cfg.requests_per_hour)
    (hd : (incr st.dayC (now / 86400)).1 > cfg.requests_per_day) :
    check_redis_rate_limit st now cfg =
      ({ st with minuteC := (incr st.minuteC (now / 60)).2,
                 hourC := (incr st.hourC (now / 3600)).2,
                 dayC := (incr st.dayC (now / 86400)).2 },
       ⟨cfg.requests_per_day, 0, (now / 86400 + 1) * 86400,
        some (86400 - now % 86400)⟩) := by
  unfold check_redis_rate_limit
  simp only []
  rw [if_neg hm, if_neg hh, if_pos hd]

theorem redis_burst_blocked (st : RedisState) (now : Nat) (cfg : RateLimitConfig)
    (hm : ¬ (incr st.minuteC (now / 60)).1 > cfg.requests_per_minute)
    (hh : ¬ (incr st.hourC (now / 3600)).1 > cfg.requests_per_hour)
    (hd : ¬ (incr st.dayC (now / 86400)).1 > cfg.requests_per_day)
    (hb : ((zadd st.burst now).filter (fun t => decide (now - 60 < t))).length >
      cfg.burst_limit) :
    check_redis_rate_limit st now cfg =
      ({ minuteC := (incr st.minuteC (now / 60)).2,
         hourC := (incr st.hourC (now / 3600)).2,
         dayC := (incr st.dayC (now / 86400)).2,
         burst := (zadd st.burst now).filter (fun t => decide (now - 60 < t)) },
       ⟨cfg.burst_limit, 0, now + 60, some 60⟩) := by
  unfold check_redis_rate_limit
  simp only []
  rw [if_neg hm, if_neg hh, if_neg hd, if_pos hb]

theorem redis_success (st : RedisState) (now : Nat) (cfg : RateLimitConfig)
    (hm : ¬ (incr st.minuteC (now / 60)).1 > cfg.requests_per_minute)
    (hh : ¬ (incr st.hourC (now / 3600)).1 > cfg.requests_per_hour)
    (hd : ¬ (incr st.dayC (now / 86400)).1 > cfg.requests_per_day)
    (hb : ¬ ((zadd st.burst now).filter (fun t => decide (now - 60 < t))).length >
      cfg.burst_limit) :
    check_redis_rate_limit st now cfg =
      ({ minuteC := (incr st.minuteC (now / 60)).2,
         hourC := (incr st.hourC (now / 3600)).2,
         dayC := (incr st.dayC (now / 86400)).2,
         burst := (zadd st.burst now).filter (fun t => decide (now - 60 < t)) },
       ⟨cfg.requests_per_minute,
        min (cfg.requests_per_minute - (incr st.minuteC (now / 60)).1)
          (min (cfg.requests_per_hour - (incr st.hourC (now / 3600)).1)
            (cfg.requests_per_day - (incr st.dayC (now / 86400)).1)),
        (now / 60 + 1) * 60, none⟩) := by
  unfold check_redis_rate_limit
  simp only []
  rw [if_neg hm, if_neg hh, if_neg hd, if_neg hb]

end Gateway

namespace Gateway

theorem zadd_mem (s : List Nat) (x t : Nat) (ht : t ∈ zadd s x) : t ∈ s ∨ t = x := by
  unfold zadd at ht
  split at ht
  · exact Or.inl ht
  · rcases List.mem_append.mp ht with h1 | h2
    · exact Or.inl h1
    · exact Or.inr (by simpa using h2)

theorem zadd_len (s : List Nat) (x : Nat) : s.length ≤ (zadd s x).length := by
  unfold zadd
  split
  · exact le_refl _
  · simp

theorem redis_monotone_aux (st : RedisState) (a b : Nat) (cfg : RateLimitConfig)
    (h60a : 60 ≤ a) (hab : a ≤ b) (hbucket : a / 60 = b / 60)
    (hpast : ∀ t ∈ st.burst, t ≤ a)
    (hkeep : ∀ t ∈ st.burst, a - 60 < t → b - 60 < t) :
    (check_redis_rate_limit (check_redis_rate_limit st a cfg).1 b cfg).2.remaining ≤
      (check_redis_rate_limit st a cfg).2.remaining := by
  have hba : b - a < 60 := by omega
  have h3600 : a / 3600 = b / 3600 := by omega
  have h86400 : a / 86400 = b / 86400 := by omega
  have hmemb : ∀ t ∈ (zadd st.burst a).filter (fun t => decide (a - 60 < t)),
      b - 60 < t := by
    intro t ht
    obtain ⟨htm, hcond⟩ := List.mem_filter.mp ht
    have hcond2 : a - 60 < t := by simpa using hcond
    have hor : t ∈ st.burst ∨ t = a := zadd_mem st.burst a t htm
    rcases hor with h1 | rfl
    · exact hkeep t h1 hcond2
    · omega
  have hb2eq : (zadd ((zadd st.burst a).filter (fun t => decide (a - 60 < t))) b).filter
      (fun t => decide (b - 60 < t)) =
      zadd ((zadd st.burst a).filter (fun t => decide (a - 60 < t))) b := by
    rw [List.filter_eq_self]
    intro t ht
    simp only [decide_eq_true_eq]
    have hor : t ∈ (zadd st.burst a).filter (fun t => decide (a - 60 < t)) ∨ t = b :=
      zadd_mem _ b t ht
    rcases hor with h1 | rfl
    · exact hmemb t h1
    · omega
  have hb2len : ((zadd st.burst a).filter (fun t => decide (a - 60 < t))).length ≤
      (zadd ((zadd st.burst a).filter (fun t => decide (a - 60 < t))) b).length :=
    zadd_len _ b
  by_cases hm1 : (incr st.minuteC (a / 60)).1 > cfg.requests_per_minute
  · rw [redis_minute_blocked st a cfg hm1]
    simp only []
    have hm2 : (incr (incr st.minuteC (a / 60)).2 (b / 60)).1 >
        cfg.requests_per_minute := by
      rw [← hbucket, incr_two_fst]
      omega
    rw [redis_minute_blocked _ b cfg hm2]
  · by_cases hh1 : (incr st.hourC (a / 3600)).1 > cfg.requests_per_hour
    · rw [redis_hour_blocked st a cfg hm1 hh1]
      simp only []
      by_cases hm2 : (incr (incr st.minuteC (a / 60)).2 (b / 60)).1 >
          cfg.requests_per_minute
      · rw [redis_minute_blocked _ b cfg hm2]
      · have hh2 : (incr (incr st.hourC (a / 3600)).2 (b / 3600)).1 >
            cfg.requests_per_hour := by
          rw [← h3600, incr_two_fst]
          omega
        rw [redis_hour_blocked _ b cfg hm2 hh2]
    · by_cases hd1 : (incr st.dayC (a / 86400)).1 > cfg.requests_per_day
      · rw [redis_day_blocked st a cfg hm1 hh1 hd1]
        simp only []
        by_cases hm2 : (incr (incr st.minuteC (a / 60)).2 (b / 60)).1 >
            cfg.requests_per_minute
        · rw [redis_minute_blocked _ b cfg hm2]
        · by_cases hh2 : (incr (incr st.hourC (a / 3600)).2 (b / 3600)).1 >
              cfg.requests_per_hour
          · rw [redis_hour_blocked _ b cfg hm2 hh2]
          · have hd2 : (incr (incr st.dayC (a / 86400)).2 (b / 86400)).1 >
                cfg.requests_per_day := by
              rw [← h86400, incr_two_fst]
              omega
            rw [redis_day_blocked _ b cfg hm2 hh2 hd2]
      · by_cases hb1 : ((zadd st.burst a).filter
            (fun t => decide (a - 60 < t))).length > cfg.burst_limit
        · rw [redis_burst_blocked st a cfg hm1 hh1 hd1 hb1]
          simp only []
          by_cases hm2 : (incr (incr st.minuteC (a / 60)).2 (b / 60)).1 >
              cfg.requests_per_minute
          · rw [redis_minute_blocked _ b cfg hm2]
          · by_cases hh2 : (incr (incr st.hourC (a / 3600)).2 (b / 3600)).1 >
                cfg.requests_per_hour
            · rw [redis_hour_blocked _ b cfg hm2 hh2]
            · by_cases hd2 : (incr (incr st.dayC (a / 86400)).2 (b / 86400)).1 >
                  cfg.requests_per_day
              · rw [redis_day_blocked _ b cfg hm2 hh2 hd2]
              · have hb2 : ((zadd ((zadd st.burst a).filter
                    (fun t => decide (a - 60 < t))) b).filter
                    (fun t => decide (b - 60 < t))).length > cfg.burst_limit := by
                  rw [hb2eq]
                  omega
                rw [redis_burst_blocked _ b cfg hm2 hh2 hd2 hb2]
        · rw [redis_success st a cfg hm1 hh1 hd1 hb1]
          simp only []
          by_cases hm2 : (incr (incr st.minuteC (a / 60)).2 (b / 60)).1 >
              cfg.requests_per_minute
          · rw [redis_minute_blocked _ b cfg hm2]
            exact Nat.zero_le _
          · by_cases hh2 : (incr (incr st.hourC (a / 3600)).2 (b / 3600)).1 >
                cfg.requests_per_hour
            · rw [redis_hour_blocked _ b cfg hm2 hh2]
              exact Nat.zero_le _
            · by_cases hd2 : (incr (incr st.dayC (a / 86400)).2 (b / 86400)).1 >
                  cfg.requests_per_day
              · rw [redis_day_blocked _ b cfg hm2 hh2 hd2]
                exact Nat.zero_le _
              · by_cases hb2 : ((zadd ((zadd st.burst a).filter
                    (fun t => decide (a - 60 < t))) b).filter
                    (fun t => decide (b - 60 < t))).length > cfg.burst_limit
                · rw [redis_burst_blocked _ b cfg hm2 hh2 hd2 hb2]
                  exact Nat.zero_le _
                · rw [redis_success _ b cfg hm2 hh2 hd2 hb2]
                  simp only []
                  have e1 : (incr (incr st.minuteC (a / 60)).2 (b / 60)).1 =
                      (incr st.minuteC (a / 60)).1 + 1 := by
                    rw [← hbucket, incr_two_fst]
                  have e2 : (incr (incr st.hourC (a / 3600)).2 (b / 3600)).1 =
                      (incr st.hourC (a / 3600)).1 + 1 := by
                    rw [← h3600, incr_two_fst]
                  have e3 : (incr (incr st.dayC (a / 86400)).2 (b / 86400)).1 =
                      (incr st.dayC (a / 86400)).1 + 1 := by
                    rw [← h86400, incr_two_fst]
                  rw [e1, e2, e3]
                  omega

end Gateway

namespace Gateway

/-- C9: the claim (remaining never increases between successive
same-bucket calls by one principal on one path) is false on the fallback
path: with 31 requests at 101..131 recorded, a call at t = 160 is
minute-blocked (remaining 0) yet the next call at t = 179 - same minute
bucket 160/60 = 179/60 = 2 - returns remaining 16, because the sliding
60-second window dropped the old timestamps. -/
theorem C9_counterexample :
    c9CallA.2.remaining = 0 ∧
    c9CallB.2.remaining = 16 ∧
    (160 : Nat) / 60 = 179 / 60 ∧
    (0 : Nat) < 16 :=
  ⟨by rfl, by rfl, by rfl, by norm_num⟩

/-- C9 (amended): between two successive same-principal calls in the same
epoch bucket, remaining is non-increasing provided no recorded timestamp
leaves a sliding window between the calls: on the fallback path, no
stored timestamp crosses the 60-second or 3600-second horizon; on the
primary path, no burst-set member crosses the 60-second horizon.  Without
that proviso the sliding windows can make remaining increase within one
bucket. -/
theorem C9_remaining_monotone :
    (∀ (S : List Nat) (a b : Nat) (cfg : RateLimitConfig),
      a ≤ b → a / 60 = b / 60 →
      (∀ t ∈ S, t ≤ a) →
      (∀ t ∈ S, a - t < 60 → b - t < 60) →
      (∀ t ∈ S, a - t < 3600 → b - t < 3600) →
      (check_memory_rate_limit (check_memory_rate_limit S a cfg).1 b cfg).2.remaining ≤
        (check_memory_rate_limit S a cfg).2.remaining) ∧
    (∀ (st : RedisState) (a b : Nat) (cfg : RateLimitConfig),
      60 ≤ a → a ≤ b → a / 60 = b / 60 →
      (∀ t ∈ st.burst, t ≤ a) →
      (∀ t ∈ st.burst, a - 60 < t → b - 60 < t) →
      (check_redis_rate_limit (check_redis_rate_limit st a cfg).1 b cfg).2.remaining ≤
        (check_redis_rate_limit st a cfg).2.remaining) :=
  ⟨fun S a b cfg h1 h2 h3 h4 h5 => mem_monotone_aux S a b cfg h1 h2 h3 h4 h5,
   fun st a b cfg h1 h2 h3 h4 h5 => redis_monotone_aux st a b cfg h1 h2 h3 h4 h5⟩

/-- C9 witness: the amended monotonicity applied to concrete same-bucket
call pairs on both paths. -/
theorem C9_witness :
    (check_memory_rate_limit (check_memory_rate_limit [100] 120 freeTier).1 130
        freeTier).2.remaining ≤
      (check_memory_rate_limit [100] 120 freeTier).2.remaining ∧
    (check_redis_rate_limit (check_redis_rate_limit ⟨[], [], [], [90]⟩ 120 freeTier).1 130
        freeTier).2.remaining ≤
      (check_redis_rate_limit ⟨[], [], [], [90]⟩ 120 freeTier).2.remaining :=
  ⟨C9_remaining_monotone.1 [100] 120 130 freeTier (by norm_num) (by norm_num)
      (by decide) (by decide) (by decide),
   C9_remaining_monotone.2 ⟨[], [], [], [90]⟩ 120 130 freeTier (by norm_num)
      (by norm_num) (by norm_num) (by decide) (by decide)⟩

end Gateway
